import Mathlib

/-!
Verification of the go-secret Senate/Equality DPoS consensus engine.

This development shallowly embeds the consensus-critical parts of the
`consensus/equality` package (its `Snapshot` operations, the `apply` replay,
the epoch election `tryElect`, the reward accumulator, `inTurn` and
`SealHash`) together with the `consensus/senate` header-extra codec.

Modelling conventions:
* A 20-byte address, a 32-byte hash and an unsigned integer are modelled as
  `Nat`; `big.Int` values are modelled as `Int` (or `Nat` where the wire format
  forbids negatives).
* A prefixed Merkle-Patricia trie is modelled as its leaf table: an
  association list sorted strictly ascending by key.  The node iterator of a
  trie walks leaves in lexicographic key order, which for the fixed-width keys
  used here is numeric order, so the sorted association list iterated front to
  back reproduces the trie iteration order.  Two tries with the same leaf
  table have the same root hash, so snapshot-state equality in this model
  corresponds to trie-root equality in the code.
* `common.Address.String()` renders an address in EIP-55 checksummed hex; the
  sort in `CountMinted` compares those strings.  The rendering order is
  abstracted as an explicit strict-order parameter `ord` on addresses.
* The Fisher-Yates shuffle of `RandCandidates` draws indices from a Go
  `math/rand` source; the drawn index stream is abstracted as an explicit
  parameter `rnd`, with `rnd i % (i + 1)` standing for `r.Int31n(int32(i+1))`.
-/

set_option maxRecDepth 8192

namespace GoSecret

/-- A 20-byte account address, as its big-endian numeric value. -/
abbrev Address := Nat

/-- Wrap-around bound of the Go `uint64` type. -/
def U64 : Nat := 2 ^ 64

/-- params.EqualityReward: reward rule of mint block. -/
structure EqualityReward where
  number : Nat
  reward : Int
  deriving DecidableEq, Repr

/-- params.EqualityConfig: consensus engine configuration. -/
structure EqualityConfig where
  period : Nat
  epoch : Nat
  maxValidatorsCount : Nat
  minCandidateBalance : Int
  genesisTimestamp : Nat
  validators : List Address
  pool : Address
  rewards : List EqualityReward
  deriving DecidableEq, Repr

/-- equality.Candidate: basic candidate information. -/
structure Candidate where
  security : Int
  blockNumber : Nat
  deriving DecidableEq, Repr

/-- equality.SortableAddress: an address with a weight. -/
structure SortableAddress where
  address : Address
  weight : Int
  deriving DecidableEq, Repr

/-- Insert a key/value pair into a key-sorted association list, overwriting
an existing binding of the same key (trie `TryUpdate`). -/
def tableInsert {β : Type} (key : Nat) (v : β) : List (Nat × β) → List (Nat × β)
  | [] => [(key, v)]
  | (k, w) :: rest =>
    if key < k then (key, v) :: (k, w) :: rest
    else if key = k then (key, v) :: rest
    else (k, w) :: tableInsert key v rest

/-- Look a key up in an association list (trie `TryGet`; `none` is the
absent/nil result). -/
def tableGet {β : Type} (key : Nat) : List (Nat × β) → Option β
  | [] => none
  | (k, w) :: rest => if key = k then some w else tableGet key rest

/-- Delete a key from an association list (trie `TryDelete`; deleting an
absent key is tolerated and is a no-op). -/
def tableDelete {β : Type} (key : Nat) : List (Nat × β) → List (Nat × β)
  | [] => []
  | (k, w) :: rest => if key = k then rest else (k, w) :: tableDelete key rest

/-- equality.Snapshot, by its four leaf tables.  `epochValidators` is the
value stored under the literal key "validator" of the epoch trie (absent when
never written), `candidateTable` and `mintCntTable` are the leaf tables of the
candidate and mint-count tries, and `configTable` is the value stored under
the literal key "config" of the config trie. -/
structure Snapshot where
  epochValidators : Option (List Address) := none
  candidateTable : List (Address × Candidate) := []
  mintCntTable : List (Nat × Address) := []
  configTable : Option EqualityConfig := none
  deriving DecidableEq, Repr

/-- The 16-byte mint-count key `epoch_be8 ‖ number_be8`, as a number: byte
lexicographic order on the concatenation coincides with numeric order on
`(epoch mod 2^64) * 2^64 + (number mod 2^64)`. -/
def mintKey (epoch number : Nat) : Nat :=
  (epoch % U64) * U64 + number % U64

/-- Snapshot.SetValidators: write the validator list of the current epoch. -/
def Snapshot.setValidators (snap : Snapshot) (validators : List Address) : Snapshot :=
  { snap with epochValidators := some validators }

/-- Snapshot.GetValidators: read the validator list; RLP decoding of an
absent entry fails, hence `Option`. -/
def Snapshot.getValidators (snap : Snapshot) : Option (List Address) :=
  snap.epochValidators

/-- Snapshot.SetChainConfig: write the chain config under the "config" key.
(The Go code normalises empty `Rewards`/`Validators` slices to nil before
JSON-encoding; the model has a single empty list, so this is the identity.) -/
def Snapshot.setChainConfig (snap : Snapshot) (config : EqualityConfig) : Snapshot :=
  { snap with configTable := some config }

/-- Snapshot.GetChainConfig: read the chain config; JSON decoding of an
absent entry fails, hence `Option`. -/
def Snapshot.getChainConfig (snap : Snapshot) : Option EqualityConfig :=
  snap.configTable

/-- Snapshot.MintBlock: write `(epoch_be8 ‖ number_be8) → validator` into the
mint-count table. -/
def Snapshot.mintBlock (snap : Snapshot) (epoch number : Nat) (validator : Address) : Snapshot :=
  { snap with mintCntTable := tableInsert (mintKey epoch number) validator snap.mintCntTable }

/-- Snapshot.BecomeCandidate: if the address is already a candidate, return
`alreadyExists = true` and change nothing; otherwise store the record
`{security, blockNumber}` under the address. -/
def Snapshot.becomeCandidate (snap : Snapshot) (candidateAddr : Address)
    (blockNumber : Nat) (security : Int) : Bool × Snapshot :=
  match tableGet candidateAddr snap.candidateTable with
  | some _ => (true, snap)
  | none =>
    (false, { snap with
              candidateTable := tableInsert candidateAddr ⟨security, blockNumber⟩
                snap.candidateTable })

/-- Snapshot.CancelCandidate: read the prior record (RLP decoding fails when
it is absent, hence `Option`), delete it, and return the stored security. -/
def Snapshot.cancelCandidate (snap : Snapshot) (candidateAddr : Address) :
    Option (Int × Snapshot) :=
  match tableGet candidateAddr snap.candidateTable with
  | none => none
  | some candidate =>
    some (candidate.security,
      { snap with candidateTable := tableDelete candidateAddr snap.candidateTable })

/-- Snapshot.GetCandidates: all candidate addresses in trie iteration
order. -/
def Snapshot.getCandidates (snap : Snapshot) : List Address :=
  snap.candidateTable.map Prod.fst

/-- The counting loop of Snapshot.EnoughCandidates: walk the candidate trie,
short-circuiting as soon as the running count reaches `n`. -/
def enoughLoop (n : Nat) : List (Address × Candidate) → Nat → Nat × Bool
  | [], count => (count, false)
  | _ :: rest, count =>
    if count + 1 ≥ n then (count + 1, true) else enoughLoop n rest (count + 1)

/-- Snapshot.EnoughCandidates: whether at least `n` candidates exist,
together with the (short-circuited) count. -/
def Snapshot.enoughCandidates (snap : Snapshot) (n : Nat) : Nat × Bool :=
  if n = 0 then (0, true)
  else enoughLoop n snap.candidateTable 0

/-- SortableAddresses.Less from equality/snapshot.go: `x` sorts strictly
before `y` when its weight is larger, ties broken by the address rendering
order `ord` (modelling `Address.String()` comparison). -/
def sortableLess (ord : Address → Address → Bool) (x y : SortableAddress) : Bool :=
  if x.weight < y.weight then false
  else if y.weight < x.weight then true
  else ord x.address y.address

/-- Insert `a` into `l` before the first element `b` with `le a b`
(insertion step of a comparison sort). -/
def insertLe {α : Type} (le : α → α → Bool) (a : α) : List α → List α
  | [] => [a]
  | b :: rest => if le a b then a :: b :: rest else b :: insertLe le a rest

/-- Comparison sort by the boolean relation `le`.  For a total transitive
`le` the output is the sorted permutation `sort.Sort` produces. -/
def sortLe {α : Type} (le : α → α → Bool) : List α → List α
  | [] => []
  | a :: rest => insertLe le a (sortLe le rest)

/-- Number of mint-count entries under the 8-byte big-endian prefix of
`epoch` whose value is `validator` (the count accumulated by the prefix
iteration of Snapshot.CountMinted). -/
def Snapshot.mintedCount (snap : Snapshot) (epoch : Nat) (validator : Address) : Nat :=
  (snap.mintCntTable.filter
    (fun kv => kv.1 / U64 = epoch % U64 && kv.2 = validator)).length

/-- Snapshot.CountMinted: one SortableAddress per current validator, its
weight the number of mint-count entries of the epoch carrying it, the result
ordered by `sort.Sort(sort.Reverse(addresses))` — i.e. no pair may be an
inversion for the reversed `SortableAddresses.Less`. -/
def Snapshot.countMinted (ord : Address → Address → Bool) (snap : Snapshot)
    (epoch : Nat) : Option (List SortableAddress) :=
  (snap.getValidators).map (fun validators =>
    sortLe (fun x y => ! sortableLess ord x y)
      (validators.map (fun v => ⟨v, (snap.mintedCount epoch v : Int)⟩)))

/-- Swap the elements at positions `i` and `j` of a list (no-op when either
position is out of range). -/
def listSwap {α : Type} (l : List α) (i j : Nat) : List α :=
  match l.get? i, l.get? j with
  | some a, some b => (l.set i b).set j a
  | _, _ => l

/-- The Fisher-Yates loop of Snapshot.RandCandidates, counting `i` down and
swapping position `i` with the drawn position `rnd i % (i + 1)`. -/
def fyLoop {α : Type} (rnd : Nat → Nat) : List α → Nat → List α
  | l, 0 => l
  | l, i + 1 => fyLoop rnd (listSwap l (i + 1) (rnd (i + 1) % (i + 2))) i

/-- Snapshot.RandCandidates: shuffle all candidate addresses (trie order)
with the drawn-index stream `rnd`, truncate to `n`; empty when `n ≤ 0` or no
candidate exists (the Go local variables are expanded in place). -/
def Snapshot.randCandidates (rnd : Nat → Nat) (snap : Snapshot) (n : Nat) :
    List Address :=
  if n = 0 then []
  else if snap.getCandidates.isEmpty then []
  else if (fyLoop rnd snap.getCandidates
      (snap.getCandidates.length - 1)).length > n then
    (fyLoop rnd snap.getCandidates (snap.getCandidates.length - 1)).take n
  else fyLoop rnd snap.getCandidates (snap.getCandidates.length - 1)

/-- types.Header, restricted to the fields the consensus engine reads.
`bloom` is the 256-byte logs bloom and `extra` the raw extra-data bytes, both
as byte lists; the hash-valued fields are 32-byte values and `nonce` an
8-byte value, as numbers. -/
structure Header where
  parentHash : Nat
  uncleHash : Nat
  coinbase : Address
  stateRoot : Nat
  txHash : Nat
  receiptHash : Nat
  bloom : List Nat
  difficulty : Nat
  number : Nat
  gasLimit : Nat
  gasUsed : Nat
  time : Nat
  extra : List Nat
  mixDigest : Nat
  nonce : Nat
  deriving DecidableEq, Repr

/-- equality.HeaderExtra, restricted to the fields read by `apply`,
`processTransactions` and `tryElect` (the root record, which those functions
never touch, is omitted). -/
structure EqHeaderExtra where
  epoch : Nat
  epochBlock : Nat
  chainConfig : List EqualityConfig := []
  currentBlockCandidates : List Address := []
  currentBlockKickOutCandidates : List Address := []
  currentBlockCancelCandidates : List Address := []
  currentEpochValidators : List Address := []
  deriving DecidableEq, Repr

/-- The become-candidate loop of Snapshot.apply: each listed candidate is
registered with security 0 at block ≤ 1 and `minCandidateBalance` later. -/
def applyCandidatesLoop (config : EqualityConfig) (number : Nat) :
    List Address → Snapshot → Snapshot
  | [], snap => snap
  | c :: rest, snap =>
    let security : Int := if number > 1 then config.minCandidateBalance else 0
    applyCandidatesLoop config number rest (snap.becomeCandidate c number security).2

/-- A cancel loop of Snapshot.apply: CancelCandidate each listed address,
propagating the first error. -/
def cancelLoop : List Address → Snapshot → Option Snapshot
  | [], snap => some snap
  | c :: rest, snap =>
    match snap.cancelCandidate c with
    | none => none
    | some (_, snap1) => cancelLoop rest snap1

/-- Snapshot.apply: the deterministic per-block replay from
equality/snapshot.go. -/
def Snapshot.apply (config : EqualityConfig) (header : Header)
    (headerExtra : EqHeaderExtra) (snap : Snapshot) : Option Snapshot :=
  let number := header.number
  let snap1 := applyCandidatesLoop config number headerExtra.currentBlockCandidates snap
  match cancelLoop headerExtra.currentBlockKickOutCandidates snap1 with
  | none => none
  | some snap2 =>
    match cancelLoop headerExtra.currentBlockCancelCandidates snap2 with
    | none => none
    | some snap3 =>
      let snap4 :=
        if header.number = headerExtra.epochBlock then
          snap3.setValidators headerExtra.currentEpochValidators
        else snap3
      let snap5 :=
        match headerExtra.chainConfig.getLast? with
        | some config1 => snap4.setChainConfig config1
        | none => snap4
      some (snap5.mintBlock headerExtra.epoch header.number header.coinbase)

/-- Go `uint64` subtraction `a - b`, wrapping modulo `2^64`. -/
def usub64 (a b : Nat) : Nat :=
  (a % U64 + (U64 - b % U64)) % U64

/-- The deduplication helper `addressesDistinct`, keeping the first
occurrence of each address. -/
def distinctKeepFirst : List Address → List Address → List Address
  | _, [] => []
  | seen, a :: rest =>
    if a ∈ seen then distinctKeepFirst seen rest
    else a :: distinctKeepFirst (a :: seen) rest

/-- header_extra.go addressesDistinct: remove duplicate addresses, keeping
first occurrences. -/
def addressesDistinct (slice : List Address) : List Address :=
  if slice.length ≤ 1 then slice else distinctKeepFirst [] slice

/-- The kick-out loop of Equality.tryElect: walk the kick list, breaking as
soon as the running candidate count no longer exceeds `safeSize`, otherwise
cancelling the candidate (an error aborts the election), decrementing the
count and recording the kicked address. -/
def kickOutLoop (safeSize : Nat) :
    List SortableAddress → Nat → Snapshot → List Address →
    Option (Nat × Snapshot × List Address)
  | [], count, snap, kicked => some (count, snap, kicked)
  | v :: rest, count, snap, kicked =>
    if count ≤ safeSize then some (count, snap, kicked)
    else
      match snap.cancelCandidate v.address with
      | none => none
      | some (_, snap1) =>
        kickOutLoop safeSize rest (count - 1) snap1 (kicked ++ [v.address])

/-- The candidate-seeding loop of Equality.tryElect for block ≤ 1: register
each genesis validator with block number 1 and security 0, appending it to
`currentBlockCandidates`. -/
def seedGenesisCandidates :
    List Address → Snapshot → List Address → Snapshot × List Address
  | [], snap, acc => (snap, acc)
  | v :: rest, snap, acc =>
    seedGenesisCandidates rest (snap.becomeCandidate v 1 0).2 (acc ++ [v])

/-- The first phase of Equality.tryElect: at block ≤ 1 seed the genesis
validators as candidates (kick list empty), otherwise build the kick list of
prior-epoch validators whose mint count is below
`epoch / period / maxValidatorsCount / 2`. -/
def tryElectPrep (ord : Address → Address → Bool) (config : EqualityConfig)
    (number : Nat) (snap : Snapshot) (headerExtra : EqHeaderExtra) :
    Option (List SortableAddress × Snapshot × EqHeaderExtra) :=
  if number ≤ 1 then
    let pair := seedGenesisCandidates config.validators snap
      headerExtra.currentBlockCandidates
    some ([], pair.1,
      { headerExtra with currentBlockCandidates := addressesDistinct pair.2 })
  else
    let minMint : Int :=
      (config.epoch / config.period / config.maxValidatorsCount / 2 : Nat)
    match snap.countMinted ord (usub64 headerExtra.epoch 1) with
    | none => none
    | some validators =>
      some (validators.filter (fun v => v.weight < minMint), snap, headerExtra)

/-- The kick-out phase of Equality.tryElect: when the kick list is
non-empty, query `enoughCandidates(safeSize + |kickList|)` with
`safeSize = maxValidatorsCount*2/3 + 1` and run the kick-out loop, recording
the kicked addresses in `currentBlockKickOutCandidates`. -/
def tryElectKickPhase (config : EqualityConfig)
    (needKickOut : List SortableAddress) (snap : Snapshot)
    (headerExtra : EqHeaderExtra) : Option (Snapshot × EqHeaderExtra) :=
  if needKickOut.isEmpty then some (snap, headerExtra)
  else
    let safeSize := config.maxValidatorsCount * 2 / 3 + 1
    let candidateCount :=
      (snap.enoughCandidates (safeSize + needKickOut.length)).1
    match kickOutLoop safeSize needKickOut candidateCount snap [] with
    | none => none
    | some (_, snap2, kicked) =>
      some (snap2, { headerExtra with currentBlockKickOutCandidates :=
        headerExtra.currentBlockKickOutCandidates ++ kicked })

/-- Equality.tryElect: the epoch election, a no-op unless
`header.number == headerExtra.epochBlock`; otherwise seed/kick-out, then
shuffle the candidates into `currentEpochValidators` and persist them with
`setValidators`.  `ord` abstracts the `Address.String()` rendering order
used by CountMinted's sort and `rnd` the PRNG index stream of the candidate
shuffle (the seed derivation from `keccak512(parentHash)` is inside
`rnd`). -/
def tryElect (ord : Address → Address → Bool) (rnd : Nat → Nat)
    (config : EqualityConfig) (header : Header) (snap : Snapshot)
    (headerExtra : EqHeaderExtra) : Option (Snapshot × EqHeaderExtra) :=
  let number := header.number
  if number ≠ headerExtra.epochBlock then some (snap, headerExtra)
  else
    match tryElectPrep ord config number snap headerExtra with
    | none => none
    | some (needKickOut, snap1, he1) =>
      match tryElectKickPhase config needKickOut snap1 he1 with
      | none => none
      | some (snap2, he2) =>
        let candidates := snap2.randCandidates rnd config.maxValidatorsCount
        let he3 := { he2 with currentEpochValidators :=
          he2.currentEpochValidators ++ candidates }
        some (snap2.setValidators he3.currentEpochValidators, he3)

/-- The reward-selection loop of Equality.accumulateRewards: assign each
entry's reward in turn, breaking once an entry's number reaches the block
number; `none` when the schedule is empty (`blockReward` stays nil). -/
def blockRewardOf : List EqualityReward → Nat → Option Int
  | [], _ => none
  | r :: rest, number =>
    if r.number ≥ number then some r.reward
    else
      match rest with
      | [] => some r.reward
      | _ :: _ => blockRewardOf rest number

/-- StateDB balance credit: `state.AddBalance(addr, amount)`. -/
def addBalance (addr : Address) (amount : Int) (state : Address → Int) :
    Address → Int :=
  fun a => if a = addr then state a + amount else state a

/-- Equality.accumulateRewards: select the block reward for the header's
number; if it is nil or ≤ 0 make no change, otherwise credit
`blockReward / 10` to the coinbase and the remainder to the pool address. -/
def accumulateRewards (config : EqualityConfig) (state : Address → Int)
    (header : Header) : Address → Int :=
  match blockRewardOf config.rewards header.number with
  | none => state
  | some blockReward =>
    if blockReward ≤ 0 then state
    else
      let base := blockReward / 10
      addBalance config.pool (blockReward - base)
        (addBalance header.coinbase base state)

/-- Fixed number of extra-data prefix bytes reserved for signer vanity. -/
def extraVanity : Nat := 32

/-- Fixed number of extra-data suffix bytes reserved for the signer seal
(crypto.SignatureLength). -/
def extraSeal : Nat := 65

/-- The validator list Equality.inTurn resolves: the parent snapshot's
validators when a parent with positive number exists, the genesis config's
validators otherwise.  A parent is modelled by its number together with the
validator list stored in its snapshot. -/
def resolveValidators (config : EqualityConfig)
    (parent : Option (Nat × List Address)) : List Address :=
  match parent with
  | some (number, snapValidators) =>
    if 0 < number then snapValidators else config.validators
  | none => config.validators

/-- Equality.inTurn: false when the resolved validator list is empty,
otherwise compare the validator at slot
`(nexBlockTime - genesisTimestamp) / period mod |validators|` (uint64
arithmetic) with the signer. -/
def inTurn (config : EqualityConfig) (parent : Option (Nat × List Address))
    (nexBlockTime : Nat) (signer : Address) : Bool :=
  let validators := resolveValidators config parent
  if validators.length = 0 then false
  else
    let idx := usub64 nexBlockTime config.genesisTimestamp / config.period
      % validators.length
    validators.getD idx 0 = signer

/-- The engine's sentinel errors (the ones this development mentions). -/
inductive ConsensusError where
  | unauthorized
  | unknownBlock
  | missingVanity
  | missingSignature
  deriving DecidableEq, Repr

/-- Equality.verifySeal, given the signer recovered from the seal: genesis is
unsupported, and a signer that is not in turn is unauthorized (`none` means
the seal check passes). -/
def verifySealCheck (config : EqualityConfig)
    (parent : Option (Nat × List Address)) (header : Header)
    (signer : Address) : Option ConsensusError :=
  if header.number = 0 then some .unknownBlock
  else if inTurn config parent header.time signer then none
  else some .unauthorized

/-- The guard sequence of Equality.Seal before signing: genesis unsupported,
extra-data must hold vanity and seal, and the coinbase must be in turn
(`none` means sealing proceeds). -/
def sealAuthCheck (config : EqualityConfig)
    (parent : Option (Nat × List Address)) (header : Header) :
    Option ConsensusError :=
  if header.number = 0 then some .unknownBlock
  else if header.extra.length < extraVanity then some .missingVanity
  else if header.extra.length < extraVanity + extraSeal then some .missingSignature
  else if ! inTurn config parent header.time header.coinbase then some .unauthorized
  else none

/-! ### RLP

The `rlp` package of the repository is not under `src/` (only its callers
are).  Modelled from the spec: the wire format is the standard RLP
serialization — a value is either a byte string or a list of values; a
single byte below 0x80 encodes as itself, a short string as `0x80+len`
followed by the bytes, a long string as `0xb7+lenOfLen`, the big-endian
length and the bytes, and lists likewise with bases 0xc0/0xf7 over the
concatenated encodings; unsigned integers encode as their minimal
big-endian bytes. -/

mutual

/-- An RLP value: a byte string or a list of RLP values (the list spine is
its own inductive so that every function on values is structurally
recursive and kernel-evaluable). -/
inductive Item where
  | bytes : List Nat → Item
  | list : ItemList → Item
  deriving DecidableEq

/-- The spine of an RLP value list. -/
inductive ItemList where
  | nil : ItemList
  | cons : Item → ItemList → ItemList
  deriving DecidableEq

end

/-- Convert an ordinary list of RLP values to a spine. -/
def ItemList.ofList : List Item → ItemList
  | [] => .nil
  | i :: rest => .cons i (ItemList.ofList rest)

/-- Convert a spine back to an ordinary list of RLP values. -/
def ItemList.toList : ItemList → List Item
  | .nil => []
  | .cons i rest => i :: rest.toList

/-- An RLP list over an ordinary Lean list. -/
def itemListOf (l : List Item) : Item := .list (ItemList.ofList l)

theorem ItemList.toList_ofList (l : List Item) :
    (ItemList.ofList l).toList = l := by
  induction l with
  | nil => rfl
  | cons i rest ih => rw [ItemList.ofList, ItemList.toList, ih]

theorem ItemList.ofList_toList : ∀ (l : ItemList),
    ItemList.ofList l.toList = l
  | .nil => rfl
  | .cons i rest => by
    rw [ItemList.toList, ItemList.ofList, ItemList.ofList_toList rest]

/-- The bounded-recursion worker behind `natBeBytes` (`fuel ≥ n` gives the
true value; the digit count of `n` is at most `n`). -/
def natBeBytesAux : Nat → Nat → List Nat
  | 0, _ => []
  | _ + 1, 0 => []
  | fuel + 1, n + 1 =>
    natBeBytesAux fuel ((n + 1) / 256) ++ [(n + 1) % 256]

/-- Minimal big-endian byte representation of a natural number (empty for
zero). -/
def natBeBytes (n : Nat) : List Nat := natBeBytesAux n n

theorem natBeBytesAux_eq_of_le :
    ∀ (fuel fuel2 n : Nat), n ≤ fuel → n ≤ fuel2 →
      natBeBytesAux fuel n = natBeBytesAux fuel2 n := by
  intro fuel
  induction fuel with
  | zero =>
    intro fuel2 n h1 _
    have : n = 0 := by omega
    subst this
    cases fuel2 <;> rfl
  | succ fuel ih =>
    intro fuel2 n h1 h2
    match n with
    | 0 => cases fuel2 <;> rfl
    | m + 1 =>
      match fuel2, h2 with
      | f2 + 1, _ =>
        rw [natBeBytesAux, natBeBytesAux]
        have hd : (m + 1) / 256 < m + 1 :=
          Nat.div_lt_self (by omega) (by omega)
        rw [ih f2 ((m + 1) / 256) (by omega) (by omega)]

theorem natBeBytes_succ (n : Nat) :
    natBeBytes (n + 1) = natBeBytes ((n + 1) / 256) ++ [(n + 1) % 256] := by
  rw [natBeBytes, natBeBytes, natBeBytesAux]
  have hd : (n + 1) / 256 < n + 1 := Nat.div_lt_self (by omega) (by omega)
  rw [natBeBytesAux_eq_of_le n ((n + 1) / 256) ((n + 1) / 256) (by omega)
    (by omega)]

/-- Big-endian value of a byte list. -/
def beBytesToNat (bs : List Nat) : Nat :=
  bs.foldl (fun acc b => acc * 256 + b) 0

/-- RLP encoding of a byte string. -/
def encodeBytes (bs : List Nat) : List Nat :=
  if bs.length = 1 ∧ bs.headI < 128 then bs
  else if bs.length ≤ 55 then (128 + bs.length) :: bs
  else (183 + (natBeBytes bs.length).length) :: (natBeBytes bs.length ++ bs)

/-- RLP header of a list whose concatenated payload is `payload`. -/
def listHeader (payload : List Nat) : List Nat :=
  if payload.length ≤ 55 then [192 + payload.length]
  else (247 + (natBeBytes payload.length).length) :: natBeBytes payload.length

mutual

/-- RLP encoding of a value. -/
def encode : Item → List Nat
  | .bytes bs => encodeBytes bs
  | .list items => listHeader (encodePayload items) ++ encodePayload items

/-- Concatenated RLP encodings of a value list. -/
def encodePayload : ItemList → List Nat
  | .nil => []
  | .cons i rest => encode i ++ encodePayload rest

end

theorem encodePayload_eq : ∀ (l : ItemList),
    encodePayload l = (l.toList.map encode).flatten
  | .nil => rfl
  | .cons i rest => by
    rw [encodePayload, ItemList.toList, List.map_cons, List.flatten_cons,
      encodePayload_eq rest]

/-- Unfolded form of `encode` on lists, over the ordinary list of
sub-values. -/
theorem encode_list_def (items : ItemList) :
    encode (.list items) =
      listHeader ((items.toList.map encode).flatten) ++
        (items.toList.map encode).flatten := by
  rw [encode, encodePayload_eq]

/-- Decode a sequence of RLP values until the input is exhausted, using the
element decoder `dec`; `steps` bounds the number of elements (any bound at
least the input length suffices, as every element consumes a byte). -/
def decodeSeq (dec : List Nat → Option (Item × List Nat)) :
    Nat → List Nat → Option (List Item)
  | _, [] => some []
  | 0, _ :: _ => none
  | steps + 1, b :: rest =>
    match dec (b :: rest) with
    | none => none
    | some (item, rest1) =>
      match decodeSeq dec steps rest1 with
      | some items => some (item :: items)
      | none => none

/-- RLP decoder for one value: returns the value and the unconsumed suffix.
`fuel` bounds the nesting depth; any `fuel` at least the input length
suffices. -/
def decodeItem : Nat → List Nat → Option (Item × List Nat)
  | 0, _ => none
  | _ + 1, [] => none
  | fuel + 1, b :: rest =>
    if b < 128 then some (.bytes [b], rest)
    else if b < 184 then
      let n := b - 128
      if n ≤ rest.length then some (.bytes (rest.take n), rest.drop n) else none
    else if b < 192 then
      let k := b - 183
      if k ≤ rest.length then
        let n := beBytesToNat (rest.take k)
        let rest1 := rest.drop k
        if n ≤ rest1.length then some (.bytes (rest1.take n), rest1.drop n)
        else none
      else none
    else if b < 248 then
      let n := b - 192
      if n ≤ rest.length then
        match decodeSeq (decodeItem fuel) n (rest.take n) with
        | some items => some (.list (ItemList.ofList items), rest.drop n)
        | none => none
      else none
    else
      let k := b - 247
      if k ≤ rest.length then
        let n := beBytesToNat (rest.take k)
        let rest1 := rest.drop k
        if n ≤ rest1.length then
          match decodeSeq (decodeItem fuel) n (rest1.take n) with
          | some items => some (.list (ItemList.ofList items), rest1.drop n)
          | none => none
        else none
      else none

/-- RLP decoding of a complete byte string (`rlp.DecodeBytes`): trailing
bytes are an error. -/
def decodeInit (bs : List Nat) : Option Item :=
  match decodeItem (bs.length + 1) bs with
  | some (item, []) => some item
  | _ => none

mutual

/-- Wire-expressibility of an RLP value: every byte-string leaf and every
list payload fits the length headers (below `2^64` bytes). -/
def itemOkB : Item → Bool
  | .bytes bs => decide (bs.length < U64)
  | .list items => decide ((encodePayload items).length < U64) && itemsOkB items

/-- Wire-expressibility of every value of a list. -/
def itemsOkB : ItemList → Bool
  | .nil => true
  | .cons i rest => itemOkB i && itemsOkB rest

end

theorem beBytesToNat_snoc (xs : List Nat) (b : Nat) :
    beBytesToNat (xs ++ [b]) = beBytesToNat xs * 256 + b := by
  simp [beBytesToNat, List.foldl_append]

/-- The big-endian byte representation is value-faithful. -/
theorem beBytesToNat_natBeBytes (n : Nat) : beBytesToNat (natBeBytes n) = n := by
  induction n using Nat.strong_induction_on with
  | _ n ih =>
    match n with
    | 0 => simp [natBeBytes, natBeBytesAux, beBytesToNat]
    | m + 1 =>
      rw [natBeBytes_succ, beBytesToNat_snoc,
        ih ((m + 1) / 256) (Nat.div_lt_self (by omega) (by omega))]
      omega

theorem natBeBytes_length_le (n k : Nat) (h : n < 256 ^ k) :
    (natBeBytes n).length ≤ k := by
  induction n using Nat.strong_induction_on generalizing k with
  | _ n ih =>
    match n, k with
    | 0, _ => simp [natBeBytes, natBeBytesAux]
    | m + 1, 0 => simp at h
    | m + 1, k + 1 =>
      rw [natBeBytes_succ]
      simp only [List.length_append, List.length_cons, List.length_nil]
      have hd : (m + 1) / 256 < 256 ^ k := by
        rw [Nat.div_lt_iff_lt_mul (by omega : 0 < 256)]
        calc m + 1 < 256 ^ (k + 1) := h
        _ = 256 ^ k * 256 := by rw [Nat.pow_succ]
      have := ih ((m + 1) / 256) (Nat.div_lt_self (by omega) (by omega)) k hd
      omega

theorem natBeBytes_length_pos (n : Nat) (h : 0 < n) :
    0 < (natBeBytes n).length := by
  match n, h with
  | m + 1, _ => rw [natBeBytes_succ]; simp

theorem u64_eq_pow : U64 = 256 ^ 8 := by norm_num [U64]

theorem encodeBytes_length_pos (bs : List Nat) : 0 < (encodeBytes bs).length := by
  unfold encodeBytes
  split
  · omega
  · split <;> simp

theorem encode_bytes_def (bs : List Nat) :
    encode (.bytes bs) = encodeBytes bs := rfl

theorem encode_length_pos (item : Item) : 0 < (encode item).length := by
  cases item with
  | bytes bs => rw [encode_bytes_def]; exact encodeBytes_length_pos bs
  | list items =>
    rw [encode]
    unfold listHeader
    split <;> simp

/-- One decoding step on a non-empty input. -/
theorem decodeItem_cons (fuel : Nat) (b : Nat) (rest : List Nat) :
    decodeItem (fuel + 1) (b :: rest) =
      (if b < 128 then some (.bytes [b], rest)
      else if b < 184 then
        let n := b - 128
        if n ≤ rest.length then some (.bytes (rest.take n), rest.drop n) else none
      else if b < 192 then
        let k := b - 183
        if k ≤ rest.length then
          let n := beBytesToNat (rest.take k)
          let rest1 := rest.drop k
          if n ≤ rest1.length then some (.bytes (rest1.take n), rest1.drop n)
          else none
        else none
      else if b < 248 then
        let n := b - 192
        if n ≤ rest.length then
          match decodeSeq (decodeItem fuel) n (rest.take n) with
          | some items => some (.list (ItemList.ofList items), rest.drop n)
          | none => none
        else none
      else
        let k := b - 247
        if k ≤ rest.length then
          let n := beBytesToNat (rest.take k)
          let rest1 := rest.drop k
          if n ≤ rest1.length then
            match decodeSeq (decodeItem fuel) n (rest1.take n) with
            | some items => some (.list (ItemList.ofList items), rest1.drop n)
            | none => none
          else none
        else none) := rfl

/-- Decoding undoes the byte-string encoder (for strings short enough for
the wire). -/
theorem decodeItem_encodeBytes (fuel : Nat) (bs rest : List Nat)
    (h : bs.length < U64) :
    decodeItem (fuel + 1) (encodeBytes bs ++ rest) = some (.bytes bs, rest) := by
  unfold encodeBytes
  split
  · rename_i hsingle
    obtain ⟨hlen, hhead⟩ := hsingle
    match bs, hlen with
    | [b], _ =>
      simp only [List.headI] at hhead
      simp only [List.cons_append, List.nil_append, decodeItem_cons, hhead,
        if_true]
  · rename_i hnotsingle
    split
    · rename_i hshort
      have hb : ¬ (128 + bs.length < 128) := by omega
      have hb2 : 128 + bs.length < 184 := by omega
      have hn : 128 + bs.length - 128 = bs.length := by omega
      simp only [List.cons_append, decodeItem_cons, hb, if_false, hb2, if_true,
        hn]
      rw [if_pos (by simp), List.take_left, List.drop_left]
    · rename_i hlong
      have hlen55 : 55 < bs.length := by omega
      set lb := natBeBytes bs.length with hlb
      have hk1 : 0 < lb.length := natBeBytes_length_pos _ (by omega)
      have hk8 : lb.length ≤ 8 := by
        apply natBeBytes_length_le
        rw [← u64_eq_pow]; exact h
      have hb : ¬ (183 + lb.length < 128) := by omega
      have hb2 : ¬ (183 + lb.length < 184) := by omega
      have hb3 : 183 + lb.length < 192 := by omega
      have hk : 183 + lb.length - 183 = lb.length := by omega
      simp only [List.cons_append, decodeItem_cons, hb, if_false, hb2, hb3,
        if_true, hk, List.append_assoc]
      rw [if_pos (by simp), List.take_left, List.drop_left, hlb,
        beBytesToNat_natBeBytes]
      rw [if_pos (by simp), List.take_left, List.drop_left]

theorem decodeSeq_nil (dec : List Nat → Option (Item × List Nat))
    (steps : Nat) : decodeSeq dec steps [] = some [] := by
  cases steps <;> rfl

theorem decodeSeq_cons (dec : List Nat → Option (Item × List Nat))
    (steps b : Nat) (rest : List Nat) :
    decodeSeq dec (steps + 1) (b :: rest) =
      (match dec (b :: rest) with
      | none => none
      | some (item, rest1) =>
        match decodeSeq dec steps rest1 with
        | some items => some (item :: items)
        | none => none) := rfl

theorem itemsOkB_iff_forall : ∀ (l : ItemList),
    (itemsOkB l = true ↔ ∀ i ∈ l.toList, itemOkB i = true)
  | .nil => by simp [itemsOkB, ItemList.toList]
  | .cons i rest => by
    rw [itemsOkB, Bool.and_eq_true, itemsOkB_iff_forall rest, ItemList.toList]
    simp

theorem itemOkB_list_iff (items : ItemList) :
    itemOkB (.list items) = true ↔
      ((items.toList.map encode).flatten).length < U64 ∧
        ∀ i ∈ items.toList, itemOkB i = true := by
  rw [itemOkB, encodePayload_eq]
  rw [Bool.and_eq_true, decide_eq_true_iff]
  rw [itemsOkB_iff_forall]

theorem length_le_flatten {α : Type} : ∀ (l : List (List α)) (x : List α),
    x ∈ l → x.length ≤ l.flatten.length := by
  intro l
  induction l with
  | nil => intro x h; simp at h
  | cons y rest ih =>
    intro x h
    rcases List.mem_cons.1 h with rfl | h
    · simp
    · have := ih x h
      simp only [List.flatten_cons, List.length_append]
      omega

/-- A sequence of encodings decodes back to its values, given a faithful
element decoder. -/
theorem decodeSeq_encode (dec : List Nat → Option (Item × List Nat))
    (items : List Item)
    (hdec : ∀ i ∈ items, ∀ r : List Nat, dec (encode i ++ r) = some (i, r)) :
    ∀ steps : Nat, ((items.map encode).flatten).length ≤ steps →
      decodeSeq dec steps ((items.map encode).flatten) = some items := by
  induction items with
  | nil => intro steps _; exact decodeSeq_nil dec steps
  | cons i rest ih =>
    intro steps hlen
    have hpos : 0 < (encode i).length := encode_length_pos i
    simp only [List.map_cons, List.flatten_cons] at hlen ⊢
    simp only [List.length_append] at hlen
    match steps, (show 1 ≤ steps by omega) with
    | steps1 + 1, _ =>
      obtain ⟨c, cs, hcs⟩ : ∃ c cs, encode i = c :: cs := by
        match henc : encode i, hpos with
        | c :: cs, _ => exact ⟨c, cs, rfl⟩
      rw [hcs, List.cons_append, decodeSeq_cons, ← List.cons_append, ← hcs,
        hdec i (by simp)]
      dsimp only
      rw [ih (fun j hj r => hdec j (by simp [hj]) r) steps1 (by omega)]

/-- Decoding undoes the encoder on every wire-expressible value, leaving any
appended suffix unconsumed. -/
theorem decodeItem_encode : ∀ fuel : Nat, ∀ item : Item,
    itemOkB item = true → ∀ rest : List Nat,
    (encode item).length ≤ fuel →
    decodeItem fuel (encode item ++ rest) = some (item, rest) := by
  intro fuel
  induction fuel using Nat.strong_induction_on with
  | _ fuel ih =>
    intro item hok rest hlen
    have hpos := encode_length_pos item
    match fuel, (show 1 ≤ fuel by omega) with
    | f + 1, _ =>
      cases item with
      | bytes bs =>
        rw [encode_bytes_def] at hlen ⊢
        refine decodeItem_encodeBytes f bs rest ?_
        rw [itemOkB] at hok
        simpa using hok
      | list items =>
        obtain ⟨hplen, hsub⟩ := (itemOkB_list_iff items).1 hok
        rw [encode_list_def] at hlen ⊢
        set payload := (items.toList.map encode).flatten with hpay
        have hple : payload.length ≤ f := by
          have h1 : 0 < (listHeader payload).length := by
            unfold listHeader; split <;> simp
          simp only [List.length_append] at hlen
          omega
        have hdec : ∀ i ∈ items.toList, ∀ r : List Nat,
            decodeItem f (encode i ++ r) = some (i, r) := by
          intro i hi r
          refine ih f (by omega) i (hsub i hi) r ?_
          have : (encode i).length ≤ payload.length := by
            rw [hpay]
            exact length_le_flatten _ _ (List.mem_map_of_mem encode hi)
          omega
        have hseq := decodeSeq_encode (decodeItem f) items.toList hdec
          payload.length (by rw [← hpay])
        rw [← hpay] at hseq
        unfold listHeader
        by_cases hshort : payload.length ≤ 55
        · rw [if_pos hshort]
          have hb : ¬ (192 + payload.length < 128) := by omega
          have hb2 : ¬ (192 + payload.length < 184) := by omega
          have hb3 : ¬ (192 + payload.length < 192) := by omega
          have hb4 : 192 + payload.length < 248 := by omega
          have hn : 192 + payload.length - 192 = payload.length := by omega
          simp only [List.cons_append, List.nil_append, decodeItem_cons, hb,
            if_false, hb2, hb3, hb4, if_true, hn]
          rw [if_pos (by simp), List.take_left, List.drop_left, hseq]
          dsimp only
          rw [ItemList.ofList_toList]
        · rw [if_neg hshort]
          set lb := natBeBytes payload.length with hlb
          have hk1 : 0 < lb.length := natBeBytes_length_pos _ (by omega)
          have hk8 : lb.length ≤ 8 := by
            apply natBeBytes_length_le
            rw [← u64_eq_pow]; exact hplen
          have hb : ¬ (247 + lb.length < 128) := by omega
          have hb2 : ¬ (247 + lb.length < 184) := by omega
          have hb3 : ¬ (247 + lb.length < 192) := by omega
          have hb4 : ¬ (247 + lb.length < 248) := by omega
          have hk : 247 + lb.length - 247 = lb.length := by omega
          simp only [List.cons_append, decodeItem_cons, hb, if_false, hb2, hb3,
            hb4, if_true, hk, List.append_assoc]
          rw [if_pos (by simp), List.take_left, List.drop_left, hlb,
            beBytesToNat_natBeBytes]
          rw [if_pos (by simp), List.take_left, List.drop_left, hseq]
          dsimp only
          rw [ItemList.ofList_toList]

/-- The RLP round trip at the byte level: `decodeInit` undoes `encode` on
every wire-expressible value. -/
theorem decodeInit_encode (item : Item) (hok : itemOkB item = true) :
    decodeInit (encode item) = some item := by
  unfold decodeInit
  have h := decodeItem_encode ((encode item).length + 1) item hok []
    (by omega)
  rw [List.append_nil] at h
  rw [h]

/-- Fixed-width big-endian byte representation (`k` bytes, truncating to
`2^(8k)`), as used for `[20]byte` addresses, `[32]byte` hashes and the
`[8]byte` nonce. -/
def natBeBytesFixed : Nat → Nat → List Nat
  | 0, _ => []
  | k + 1, n => natBeBytesFixed k (n / 256) ++ [n % 256]

theorem natBeBytesFixed_length (k n : Nat) :
    (natBeBytesFixed k n).length = k := by
  induction k generalizing n with
  | zero => rfl
  | succ k ih => simp [natBeBytesFixed, ih]

theorem beBytesToNat_natBeBytesFixed (k n : Nat) (h : n < 256 ^ k) :
    beBytesToNat (natBeBytesFixed k n) = n := by
  induction k generalizing n with
  | zero => simp at h; simp [natBeBytesFixed, beBytesToNat, h]
  | succ k ih =>
    rw [natBeBytesFixed, beBytesToNat_snoc, ih]
    · omega
    · rw [Nat.div_lt_iff_lt_mul (by omega : 0 < 256)]
      calc n < 256 ^ (k + 1) := h
      _ = 256 ^ k * 256 := by rw [Nat.pow_succ]

/-- RLP item of an unsigned integer (minimal big-endian bytes; `big.Int`
values on the wire are non-negative and encode identically). -/
def itemU64 (n : Nat) : Item := .bytes (natBeBytes n)

/-- RLP item of a 20-byte address. -/
def itemAddr (a : Address) : Item := .bytes (natBeBytesFixed 20 a)

/-- RLP item of a 32-byte hash. -/
def itemHash (h : Nat) : Item := .bytes (natBeBytesFixed 32 h)

/-- Read an RLP item back as an unsigned integer. -/
def asNat : Item → Option Nat
  | .bytes bs => some (beBytesToNat bs)
  | .list _ => none

/-- Read an RLP item back as a 20-byte address. -/
def asAddr : Item → Option Address
  | .bytes bs => if bs.length = 20 then some (beBytesToNat bs) else none
  | .list _ => none

/-- Read an RLP item back as a 32-byte hash. -/
def asHash : Item → Option Nat
  | .bytes bs => if bs.length = 32 then some (beBytesToNat bs) else none
  | .list _ => none

theorem asNat_itemU64 (n : Nat) : asNat (itemU64 n) = some n := by
  simp [asNat, itemU64, beBytesToNat_natBeBytes]

theorem asAddr_itemAddr (a : Address) (h : a < 2 ^ 160) :
    asAddr (itemAddr a) = some a := by
  rw [itemAddr]
  simp only [asAddr]
  rw [if_pos (natBeBytesFixed_length 20 a)]
  rw [beBytesToNat_natBeBytesFixed 20 a
    (lt_of_lt_of_eq h (by norm_num))]

theorem asHash_itemHash (h : Nat) (hlt : h < 2 ^ 256) :
    asHash (itemHash h) = some h := by
  rw [itemHash]
  simp only [asHash]
  rw [if_pos (natBeBytesFixed_length 32 h)]
  rw [beBytesToNat_natBeBytesFixed 32 h
    (lt_of_lt_of_eq hlt (by norm_num))]

/-! ### The senate header-extra wire structures

senate/header_extra.go defines `Root` and `HeaderExtra`; `params.SenateConfig`
is not under `src/`, so it is modelled from the spec: the chain-parameter
record of the senate variant carries `period`, `epoch`,
`maxValidatorsCount`, `minCandidateBalance`, `minDelegatorBalance`,
`genesisTimestamp`, the genesis `validators` and the sorted `rewards`
schedule of height/reward pairs. -/

/-- senate.Root: the six per-table trie roots. -/
structure SenateRoot where
  epochHash : Nat
  delegateHash : Nat
  candidateHash : Nat
  voteHash : Nat
  mintCntHash : Nat
  configHash : Nat
  deriving DecidableEq, Repr

/-- Modelled from the spec: params.SenateReward, a height/reward pair of the
reward schedule (its declaration is not under src/). -/
structure SenateReward where
  height : Nat
  reward : Nat
  deriving DecidableEq, Repr

/-- Modelled from the spec: params.SenateConfig, the senate chain-parameter
record (its declaration is not under src/; fields per spec §4.9, senate
variant). -/
structure SenateConfig where
  period : Nat
  epoch : Nat
  maxValidatorsCount : Nat
  minCandidateBalance : Nat
  minDelegatorBalance : Nat
  genesisTimestamp : Nat
  validators : List Address
  rewards : List SenateReward
  deriving DecidableEq, Repr

/-- senate.HeaderExtra: the per-block consensus payload
(`currentBlockDelegates` entries are delegator/candidate pairs). -/
structure SenateHeaderExtra where
  root : SenateRoot
  epoch : Nat
  epochTime : Nat
  chainConfig : List SenateConfig
  currentBlockDelegates : List (Address × Address)
  currentBlockCandidates : List Address
  currentBlockKickOutCandidates : List Address
  currentEpochValidators : List SortableAddress
  deriving DecidableEq, Repr

/-- RLP shape of senate.Root (a struct encodes as the list of its fields in
declaration order). -/
def rootItem (r : SenateRoot) : Item :=
  itemListOf [itemHash r.epochHash, itemHash r.delegateHash,
    itemHash r.candidateHash, itemHash r.voteHash, itemHash r.mintCntHash,
    itemHash r.configHash]

/-- RLP shape of a reward-schedule entry. -/
def rewardItem (r : SenateReward) : Item :=
  itemListOf [itemU64 r.height, itemU64 r.reward]

/-- RLP shape of the senate chain-parameter record. -/
def configItem (c : SenateConfig) : Item :=
  itemListOf [itemU64 c.period, itemU64 c.epoch, itemU64 c.maxValidatorsCount,
    itemU64 c.minCandidateBalance, itemU64 c.minDelegatorBalance,
    itemU64 c.genesisTimestamp, itemListOf (c.validators.map itemAddr),
    itemListOf (c.rewards.map rewardItem)]

/-- RLP shape of a senate.Delegate entry. -/
def delegateItem (d : Address × Address) : Item :=
  itemListOf [itemAddr d.1, itemAddr d.2]

/-- RLP shape of a SortableAddress (weight as a non-negative integer). -/
def sortableItem (s : SortableAddress) : Item :=
  itemListOf [itemAddr s.address, itemU64 s.weight.toNat]

/-- RLP shape of senate.HeaderExtra (`rlp.EncodeToBytes`). -/
def headerExtraItem (x : SenateHeaderExtra) : Item :=
  itemListOf [rootItem x.root, itemU64 x.epoch, itemU64 x.epochTime,
    itemListOf (x.chainConfig.map configItem),
    itemListOf (x.currentBlockDelegates.map delegateItem),
    itemListOf (x.currentBlockCandidates.map itemAddr),
    itemListOf (x.currentBlockKickOutCandidates.map itemAddr),
    itemListOf (x.currentEpochValidators.map sortableItem)]

/-- Decode every item of a list with the element parser `p`. -/
def parseList {α : Type} (p : Item → Option α) : List Item → Option (List α)
  | [] => some []
  | i :: rest =>
    match p i with
    | none => none
    | some a =>
      match parseList p rest with
      | some l => some (a :: l)
      | none => none

theorem parseList_map {α : Type} (p : Item → Option α) (f : α → Item)
    (l : List α) (h : ∀ a ∈ l, p (f a) = some a) :
    parseList p (l.map f) = some l := by
  induction l with
  | nil => rfl
  | cons a rest ih =>
    simp only [List.map_cons, parseList, h a (by simp),
      ih (fun b hb => h b (by simp [hb]))]

/-- Decode the RLP shape of senate.Root. -/
def parseRoot : Item → Option SenateRoot
  | .list l =>
    match l.toList with
    | [i1, i2, i3, i4, i5, i6] =>
      match asHash i1, asHash i2, asHash i3, asHash i4, asHash i5,
          asHash i6 with
      | some h1, some h2, some h3, some h4, some h5, some h6 =>
        some ⟨h1, h2, h3, h4, h5, h6⟩
      | _, _, _, _, _, _ => none
    | _ => none
  | _ => none

/-- Decode the RLP shape of a reward-schedule entry. -/
def parseReward : Item → Option SenateReward
  | .list l =>
    match l.toList with
    | [i1, i2] =>
      match asNat i1, asNat i2 with
      | some h, some r => some ⟨h, r⟩
      | _, _ => none
    | _ => none
  | _ => none

/-- Decode the RLP shape of the senate chain-parameter record. -/
def parseConfig : Item → Option SenateConfig
  | .list l =>
    match l.toList with
    | [i1, i2, i3, i4, i5, i6, .list i7, .list i8] =>
      match asNat i1, asNat i2, asNat i3, asNat i4, asNat i5, asNat i6,
          parseList asAddr i7.toList, parseList parseReward i8.toList with
      | some a1, some a2, some a3, some a4, some a5, some a6, some vs,
          some rs =>
        some ⟨a1, a2, a3, a4, a5, a6, vs, rs⟩
      | _, _, _, _, _, _, _, _ => none
    | _ => none
  | _ => none

/-- Decode the RLP shape of a senate.Delegate. -/
def parseDelegate : Item → Option (Address × Address)
  | .list l =>
    match l.toList with
    | [i1, i2] =>
      match asAddr i1, asAddr i2 with
      | some d, some c => some (d, c)
      | _, _ => none
    | _ => none
  | _ => none

/-- Decode the RLP shape of a SortableAddress. -/
def parseSortable : Item → Option SortableAddress
  | .list l =>
    match l.toList with
    | [i1, i2] =>
      match asAddr i1, asNat i2 with
      | some a, some w => some ⟨a, (w : Int)⟩
      | _, _ => none
    | _ => none
  | _ => none

/-- Decode the RLP shape of senate.HeaderExtra. -/
def parseHeaderExtra : Item → Option SenateHeaderExtra
  | .list l =>
    match l.toList with
    | [i1, i2, i3, .list i4, .list i5, .list i6, .list i7, .list i8] =>
      match parseRoot i1, asNat i2, asNat i3, parseList parseConfig i4.toList,
          parseList parseDelegate i5.toList, parseList asAddr i6.toList,
          parseList asAddr i7.toList, parseList parseSortable i8.toList with
      | some r, some e, some t, some cc, some ds, some cs, some ks, some vs =>
        some ⟨r, e, t, cc, ds, cs, ks, vs⟩
      | _, _, _, _, _, _, _, _ => none
    | _ => none
  | _ => none

/-- Bounds making a senate.Root wire-faithful (each root is a 32-byte
hash). -/
def SenateRoot.okB (r : SenateRoot) : Bool :=
  decide (r.epochHash < 2 ^ 256) && decide (r.delegateHash < 2 ^ 256) &&
    decide (r.candidateHash < 2 ^ 256) && decide (r.voteHash < 2 ^ 256) &&
    decide (r.mintCntHash < 2 ^ 256) && decide (r.configHash < 2 ^ 256)

/-- An address fits in 20 bytes. -/
def addrOkB (a : Address) : Bool :=
  decide (a < 2 ^ 160)

/-- Bounds making a senate chain-parameter record wire-faithful. -/
def SenateConfig.okB (c : SenateConfig) : Bool :=
  c.validators.all addrOkB

/-- Wire-expressibility of a senate.HeaderExtra: every address fits 20
bytes, every hash 32 bytes, weights are non-negative `big.Int`s, and the RLP
shape respects the length headers. -/
def SenateHeaderExtra.wireOkB (x : SenateHeaderExtra) : Bool :=
  x.root.okB && x.chainConfig.all SenateConfig.okB &&
    x.currentBlockDelegates.all (fun d => addrOkB d.1 && addrOkB d.2) &&
    x.currentBlockCandidates.all addrOkB &&
    x.currentBlockKickOutCandidates.all addrOkB &&
    x.currentEpochValidators.all
      (fun s => addrOkB s.address && decide (0 ≤ s.weight)) &&
    itemOkB (headerExtraItem x)

theorem parseRoot_rootItem (r : SenateRoot) (h : r.okB = true) :
    parseRoot (rootItem r) = some r := by
  simp only [SenateRoot.okB, Bool.and_eq_true, decide_eq_true_iff] at h
  obtain ⟨⟨⟨⟨⟨h1, h2⟩, h3⟩, h4⟩, h5⟩, h6⟩ := h
  simp only [rootItem, parseRoot, itemListOf, ItemList.toList_ofList,
    asHash_itemHash _ h1, asHash_itemHash _ h2,
    asHash_itemHash _ h3, asHash_itemHash _ h4, asHash_itemHash _ h5,
    asHash_itemHash _ h6]

theorem parseReward_rewardItem (r : SenateReward) :
    parseReward (rewardItem r) = some r := by
  simp only [rewardItem, parseReward, itemListOf, ItemList.toList_ofList,
    asNat_itemU64]

theorem parseConfig_configItem (c : SenateConfig) (h : c.okB = true) :
    parseConfig (configItem c) = some c := by
  simp only [SenateConfig.okB, List.all_eq_true] at h
  have hv : parseList asAddr (c.validators.map itemAddr) = some c.validators := by
    refine parseList_map _ _ _ (fun a ha => ?_)
    have := h a ha
    simp only [addrOkB, decide_eq_true_iff] at this
    exact asAddr_itemAddr a this
  have hr : parseList parseReward (c.rewards.map rewardItem) = some c.rewards :=
    parseList_map _ _ _ (fun r _ => parseReward_rewardItem r)
  simp only [configItem, parseConfig, itemListOf, ItemList.toList_ofList,
    asNat_itemU64, hv, hr]

theorem parseDelegate_delegateItem (d : Address × Address)
    (h1 : d.1 < 2 ^ 160) (h2 : d.2 < 2 ^ 160) :
    parseDelegate (delegateItem d) = some d := by
  simp only [delegateItem, parseDelegate, itemListOf, ItemList.toList_ofList,
    asAddr_itemAddr _ h1, asAddr_itemAddr _ h2]

theorem parseSortable_sortableItem (s : SortableAddress)
    (h1 : s.address < 2 ^ 160) (h2 : 0 ≤ s.weight) :
    parseSortable (sortableItem s) = some s := by
  obtain ⟨a, w⟩ := s
  simp only at h1 h2
  simp only [sortableItem, parseSortable, itemListOf, ItemList.toList_ofList,
    asAddr_itemAddr _ h1, asNat_itemU64,
    Option.some.injEq, SortableAddress.mk.injEq, true_and]
  omega

/-- The structured round trip: parsing undoes the RLP shaping of a
wire-expressible senate.HeaderExtra. -/
theorem parseHeaderExtra_headerExtraItem (x : SenateHeaderExtra)
    (h : x.wireOkB = true) :
    parseHeaderExtra (headerExtraItem x) = some x := by
  simp only [SenateHeaderExtra.wireOkB, Bool.and_eq_true] at h
  obtain ⟨⟨⟨⟨⟨⟨hroot, hcc⟩, hds⟩, hcs⟩, hks⟩, hvs⟩, -⟩ := h
  have h1 := parseRoot_rootItem x.root hroot
  have h4 : parseList parseConfig (x.chainConfig.map configItem) =
      some x.chainConfig := by
    refine parseList_map _ _ _ (fun c hc => ?_)
    rw [List.all_eq_true] at hcc
    exact parseConfig_configItem c (hcc c hc)
  have h5 : parseList parseDelegate
      (x.currentBlockDelegates.map delegateItem) =
      some x.currentBlockDelegates := by
    refine parseList_map _ _ _ (fun d hd => ?_)
    rw [List.all_eq_true] at hds
    have := hds d hd
    simp only [addrOkB, Bool.and_eq_true, decide_eq_true_iff] at this
    exact parseDelegate_delegateItem d this.1 this.2
  have h6 : parseList asAddr (x.currentBlockCandidates.map itemAddr) =
      some x.currentBlockCandidates := by
    refine parseList_map _ _ _ (fun a ha => ?_)
    rw [List.all_eq_true] at hcs
    have := hcs a ha
    simp only [addrOkB, decide_eq_true_iff] at this
    exact asAddr_itemAddr a this
  have h7 : parseList asAddr (x.currentBlockKickOutCandidates.map itemAddr) =
      some x.currentBlockKickOutCandidates := by
    refine parseList_map _ _ _ (fun a ha => ?_)
    rw [List.all_eq_true] at hks
    have := hks a ha
    simp only [addrOkB, decide_eq_true_iff] at this
    exact asAddr_itemAddr a this
  have h8 : parseList parseSortable
      (x.currentEpochValidators.map sortableItem) =
      some x.currentEpochValidators := by
    refine parseList_map _ _ _ (fun s hs => ?_)
    rw [List.all_eq_true] at hvs
    have := hvs s hs
    simp only [addrOkB, Bool.and_eq_true, decide_eq_true_iff] at this
    exact parseSortable_sortableItem s this.1 this.2
  simp only [headerExtraItem, parseHeaderExtra, itemListOf,
    ItemList.toList_ofList, h1, asNat_itemU64, h4, h5, h6, h7, h8]

/-- senate HeaderExtra.Encode: RLP-encode the struct, then gzip-compress.
The gzip writer (out-of-scope Go standard library) is abstracted as the
compressor `comp`. -/
def senateHeaderExtraEncode (comp : List Nat → List Nat)
    (x : SenateHeaderExtra) : List Nat :=
  comp (encode (headerExtraItem x))

/-- senate.NewHeaderExtra: gzip-decompress (abstracted as `decomp`), then
RLP-decode. -/
def senateHeaderExtraDecode (decomp : List Nat → Option (List Nat))
    (data : List Nat) : Option SenateHeaderExtra :=
  match decomp data with
  | none => none
  | some rlpBytes =>
    match decodeInit rlpBytes with
    | none => none
    | some item => parseHeaderExtra item

/-- encodeSigHeader from equality/consensus.go: the RLP list of all header
fields, taking `extra` without its trailing 65 seal bytes. -/
def encodeSigHeader (h : Header) : List Nat :=
  encode (itemListOf [itemHash h.parentHash, itemHash h.uncleHash,
    itemAddr h.coinbase, itemHash h.stateRoot, itemHash h.txHash,
    itemHash h.receiptHash, .bytes h.bloom, itemU64 h.difficulty,
    itemU64 h.number, itemU64 h.gasLimit, itemU64 h.gasUsed, itemU64 h.time,
    .bytes (h.extra.take (h.extra.length - extraSeal)), itemHash h.mixDigest,
    .bytes (natBeBytesFixed 8 h.nonce)])

/-- equality.SealHash: keccak256 over `encodeSigHeader`.  The hash primitive
(an external library) is passed in as `keccak`. -/
def sealHash (keccak : List Nat → Nat) (h : Header) : Nat :=
  keccak (encodeSigHeader h)

/-! ## Generic sorting lemmas for the CountMinted order -/

theorem insertLe_perm {α : Type} (le : α → α → Bool) (a : α) (l : List α) :
    (insertLe le a l).Perm (a :: l) := by
  induction l with
  | nil => exact List.Perm.refl _
  | cons b rest ih =>
    rw [insertLe]
    split
    · exact List.Perm.refl _
    · exact ((ih.cons b).trans (List.Perm.swap a b rest))

theorem sortLe_perm {α : Type} (le : α → α → Bool) (l : List α) :
    (sortLe le l).Perm l := by
  induction l with
  | nil => exact List.Perm.refl _
  | cons a rest ih =>
    rw [sortLe]
    exact (insertLe_perm le a (sortLe le rest)).trans (ih.cons a)

theorem insertLe_pairwise {α : Type} (le : α → α → Bool)
    (htot : ∀ x y, le x y = true ∨ le y x = true)
    (htrans : ∀ x y z, le x y = true → le y z = true → le x z = true)
    (a : α) (l : List α) (hl : List.Pairwise (fun x y => le x y = true) l) :
    List.Pairwise (fun x y => le x y = true) (insertLe le a l) := by
  induction l with
  | nil => simp [insertLe]
  | cons b rest ih =>
    rw [insertLe]
    rcases List.pairwise_cons.1 hl with ⟨hb, hrest⟩
    split
    · rename_i hab
      refine List.pairwise_cons.2 ⟨?_, hl⟩
      intro y hy
      rcases List.mem_cons.1 hy with rfl | hy
      · exact hab
      · exact htrans a b y hab (hb y hy)
    · rename_i hab
      have hba : le b a = true := by
        rcases htot a b with h | h
        · exact absurd h hab
        · exact h
      refine List.pairwise_cons.2 ⟨?_, ih hrest⟩
      intro y hy
      have := (insertLe_perm le a rest).mem_iff.1 hy
      rcases List.mem_cons.1 this with rfl | hy2
      · exact hba
      · exact hb y hy2

theorem sortLe_pairwise {α : Type} (le : α → α → Bool)
    (htot : ∀ x y, le x y = true ∨ le y x = true)
    (htrans : ∀ x y z, le x y = true → le y z = true → le x z = true)
    (l : List α) :
    List.Pairwise (fun x y => le x y = true) (sortLe le l) := by
  induction l with
  | nil => simp [sortLe]
  | cons a rest ih =>
    rw [sortLe]
    exact insertLe_pairwise le htot htrans a (sortLe le rest) ih

theorem sortableLess_false_iff (ord : Address → Address → Bool)
    (x y : SortableAddress) :
    sortableLess ord x y = false ↔
      (x.weight < y.weight ∨
        (x.weight = y.weight ∧ ord x.address y.address = false)) := by
  unfold sortableLess
  by_cases h1 : x.weight < y.weight
  · simp [h1]
  · by_cases h2 : y.weight < x.weight
    · simp [h1, h2]; omega
    · have h3 : x.weight = y.weight := by omega
      simp [h1, h2, h3]

theorem ord_irrefl (ord : Address → Address → Bool)
    (hasym : ∀ a b, ord a b = true → ord b a = false) (a : Address) :
    ord a a = false := by
  by_cases h : ord a a = true
  · exact hasym a a h
  · simpa using h

theorem notLess_total (ord : Address → Address → Bool)
    (hasym : ∀ a b, ord a b = true → ord b a = false)
    (x y : SortableAddress) :
    (! sortableLess ord x y) = true ∨ (! sortableLess ord y x) = true := by
  rw [Bool.not_eq_true', Bool.not_eq_true']
  rw [sortableLess_false_iff, sortableLess_false_iff]
  by_cases h1 : x.weight < y.weight
  · left; left; exact h1
  · by_cases h2 : y.weight < x.weight
    · right; left; exact h2
    · have h3 : x.weight = y.weight := by omega
      by_cases h4 : ord x.address y.address = true
      · right; exact Or.inr ⟨h3.symm, hasym _ _ h4⟩
      · left; exact Or.inr ⟨h3, by simpa using h4⟩

theorem notLess_trans (ord : Address → Address → Bool)
    (hasym : ∀ a b, ord a b = true → ord b a = false)
    (htot : ∀ a b, a ≠ b → ord a b = true ∨ ord b a = true)
    (htrans : ∀ a b c, ord a b = true → ord b c = true → ord a c = true)
    (x y z : SortableAddress) :
    (! sortableLess ord x y) = true → (! sortableLess ord y z) = true →
      (! sortableLess ord x z) = true := by
  rw [Bool.not_eq_true', Bool.not_eq_true', Bool.not_eq_true']
  rw [sortableLess_false_iff, sortableLess_false_iff, sortableLess_false_iff]
  rintro (hxy | ⟨hwxy, hoxy⟩) (hyz | ⟨hwyz, hoyz⟩)
  · left; omega
  · left; omega
  · left; omega
  · right
    refine ⟨by omega, ?_⟩
    by_cases hxz : x.address = z.address
    · rw [hxz]; exact ord_irrefl ord hasym _
    · rw [Bool.eq_false_iff]
      intro hord
      by_cases hxya : x.address = y.address
      · rw [hxya] at hord
        rw [hord] at hoyz
        cases hoyz
      · rcases htot _ _ hxya with h | h
        · rw [h] at hoxy; cases hoxy
        · by_cases hyza : y.address = z.address
          · rw [hyza] at h
            rw [hasym _ _ hord] at h
            cases h
          · rcases htot _ _ hyza with h2 | h2
            · rw [h2] at hoyz; cases hoyz
            · have h3 := htrans _ _ _ h2 h
              rw [hasym _ _ hord] at h3
              cases h3

/-! ## Claim C1 — CountMinted -/

/-- The address rendering order used for concrete evaluations: ascending
numeric value. -/
def ordNat : Address → Address → Bool := fun a b => decide (a < b)

/-- Validator A of scenario S4 (three mints). -/
def addrA : Address := 0xcc7c8317b21e1cea6139700c3c46c21af998d14c

/-- Validator B of scenario S4 (two mints). -/
def addrB : Address := 0x44d1ce0b7cb3588bca96151fe1bc05af38f91b6c

/-- Validator C of scenario S4 (four mints). -/
def addrC : Address := 0xf541c3cd1d2df407fb9bb52b3489fc2aaeedd97e

/-- Scenario S4: validators `[A, B, C]` and the nine mints
`A,A,A,B,B,C,C,C,C` of epoch 1. -/
def s4Snapshot : Snapshot :=
  (((((((((Snapshot.setValidators {} [addrA, addrB, addrC]).mintBlock 1 1 addrA
    ).mintBlock 1 2 addrA).mintBlock 1 3 addrA).mintBlock 1 4 addrB
    ).mintBlock 1 5 addrB).mintBlock 1 6 addrC).mintBlock 1 7 addrC
    ).mintBlock 1 8 addrC).mintBlock 1 9 addrC

/-- C1, counterexample: after the nine mints of scenario S4 with validators
`[A, B, C]`, `countMinted(1)` returns the ASCENDING sequence
`[B:2, A:3, C:4]` (the code applies `sort.Sort(sort.Reverse(...))` to a
`Less` that is already descending, and the repository's own TestCountMinted
asserts this ascending order), not the claimed descending `[C:4, A:3, B:2]`. -/
theorem countMinted_s4_not_descending :
    Snapshot.countMinted ordNat s4Snapshot 1 =
      some [⟨addrB, 2⟩, ⟨addrA, 3⟩, ⟨addrC, 4⟩] ∧
    (some [⟨addrB, 2⟩, ⟨addrA, 3⟩, ⟨addrC, 4⟩] : Option (List SortableAddress)) ≠
      some [⟨addrC, 4⟩, ⟨addrA, 3⟩, ⟨addrB, 2⟩] := by
  constructor
  · decide
  · decide

/-- C1, amended: for every epoch and mint history, `countMinted(epoch)`
returns one SortableAddress per validator of the current validator set,
whose weight is the number of mint-count entries under the 8-byte big-endian
epoch prefix carrying that validator (0 when absent), and the returned list
is sorted ASCENDING by that count with ties broken DESCENDING in the
`Address.String()` rendering order (`ord`, assumed a strict total order):
no adjacent pair is an inversion of the reversed comparator. -/
theorem countMinted_weights_sorted (ord : Address → Address → Bool)
    (hasym : ∀ a b, ord a b = true → ord b a = false)
    (htot : ∀ a b, a ≠ b → ord a b = true ∨ ord b a = true)
    (htrans : ∀ a b c, ord a b = true → ord b c = true → ord a c = true)
    (snap : Snapshot) (epoch : Nat) (validators : List Address)
    (hv : snap.getValidators = some validators) :
    ∃ l, snap.countMinted ord epoch = some l ∧
      l.Perm (validators.map
        (fun v => ⟨v, (snap.mintedCount epoch v : Int)⟩)) ∧
      List.Pairwise (fun x y => sortableLess ord x y = false) l := by
  refine ⟨sortLe (fun x y => ! sortableLess ord x y)
    (validators.map (fun v => ⟨v, (snap.mintedCount epoch v : Int)⟩)), ?_, ?_, ?_⟩
  · simp [Snapshot.countMinted, hv]
  · exact sortLe_perm _ _
  · have := sortLe_pairwise (fun x y => ! sortableLess ord x y)
      (fun x y => notLess_total ord hasym x y)
      (fun x y z => notLess_trans ord hasym htot htrans x y z)
      (validators.map (fun v => ⟨v, (snap.mintedCount epoch v : Int)⟩))
    refine this.imp ?_
    intro x y h
    rwa [Bool.not_eq_true'] at h

theorem ordNat_asym : ∀ a b : Address, ordNat a b = true → ordNat b a = false := by
  intro a b h
  simp only [ordNat, decide_eq_true_eq] at h
  simp only [ordNat, decide_eq_false_iff_not]
  exact Nat.lt_asymm h

theorem ordNat_total : ∀ a b : Address, a ≠ b →
    ordNat a b = true ∨ ordNat b a = true := by
  intro a b h
  simp only [ordNat, decide_eq_true_eq]
  exact Nat.lt_or_gt_of_ne h

theorem ordNat_trans : ∀ a b c : Address, ordNat a b = true →
    ordNat b c = true → ordNat a c = true := by
  intro a b c h1 h2
  simp only [ordNat, decide_eq_true_eq] at h1 h2 ⊢
  exact Nat.lt_trans h1 h2

/-- C1, amended, witness at scenario S4. -/
theorem countMinted_weights_sorted_witness :
    ∃ l, Snapshot.countMinted ordNat s4Snapshot 1 = some l ∧
      l.Perm ([addrA, addrB, addrC].map
        (fun v => ⟨v, (s4Snapshot.mintedCount 1 v : Int)⟩)) ∧
      List.Pairwise (fun x y => sortableLess ordNat x y = false) l :=
  countMinted_weights_sorted ordNat ordNat_asym ordNat_total ordNat_trans
    s4Snapshot 1 [addrA, addrB, addrC] rfl

/-! ## Claim C2 — the apply replay order -/

theorem applyCandidatesLoop_eq_foldl (config : EqualityConfig) (number : Nat)
    (l : List Address) (snap : Snapshot) :
    applyCandidatesLoop config number l snap =
      l.foldl (fun s c => (s.becomeCandidate c number
        (if number > 1 then config.minCandidateBalance else 0)).2) snap := by
  induction l generalizing snap with
  | nil => rfl
  | cons c rest ih => simp only [applyCandidatesLoop, List.foldl_cons, ih]

theorem cancelLoop_eq_foldlM (l : List Address) (snap : Snapshot) :
    cancelLoop l snap =
      l.foldlM (fun s c => (s.cancelCandidate c).map Prod.snd) snap := by
  induction l generalizing snap with
  | nil => rfl
  | cons c rest ih =>
    rw [cancelLoop, List.foldlM_cons]
    cases h : snap.cancelCandidate c with
    | none => rfl
    | some p =>
      obtain ⟨sec, snap1⟩ := p
      show cancelLoop rest snap1 = _
      simp only [Option.map_some', Option.bind_eq_bind, Option.some_bind]
      exact ih snap1

/-- C2: `apply` is exactly the ordered composition — becomeCandidate over
`currentBlockCandidates` (security 0 at block ≤ 1, else minCandidateBalance),
then cancel of each `currentBlockKickOutCandidates` entry, then cancel of
each `currentBlockCancelCandidates` entry, then `setValidators` precisely
when `header.number = epochBlock`, then `setChainConfig` of the last
`chainConfig` entry precisely when that list is non-empty, and finally
`mintBlock(epoch, number, coinbase)` — with no other table mutation. -/
theorem apply_eq_ordered_replay (config : EqualityConfig) (header : Header)
    (he : EqHeaderExtra) (snap : Snapshot) :
    Snapshot.apply config header he snap =
      (((he.currentBlockKickOutCandidates.foldlM
          (fun (s : Snapshot) (c : Address) => (s.cancelCandidate c).map Prod.snd)
          (he.currentBlockCandidates.foldl
            (fun (s : Snapshot) (c : Address) => (s.becomeCandidate c header.number
              (if header.number > 1 then config.minCandidateBalance else 0)).2)
            snap)).bind
        (fun s : Snapshot => he.currentBlockCancelCandidates.foldlM
          (fun (s : Snapshot) (c : Address) => (s.cancelCandidate c).map Prod.snd) s)).map
        (fun s : Snapshot =>
          (Snapshot.mintBlock
            (match he.chainConfig.getLast? with
            | some c =>
              Snapshot.setChainConfig
                (if header.number = he.epochBlock
                  then s.setValidators he.currentEpochValidators
                  else s) c
            | none =>
              (if header.number = he.epochBlock
                then s.setValidators he.currentEpochValidators
                else s))
            he.epoch header.number header.coinbase))) := by
  rw [Snapshot.apply]
  rw [applyCandidatesLoop_eq_foldl, ← cancelLoop_eq_foldlM]
  cases cancelLoop he.currentBlockKickOutCandidates _ with
  | none => rfl
  | some snap2 =>
    simp only [Option.bind_eq_bind, Option.some_bind, ← cancelLoop_eq_foldlM]
    cases cancelLoop he.currentBlockCancelCandidates snap2 with
    | none => rfl
    | some snap3 => rfl

/-! ## Claim C3 — reward selection -/

/-- The amended selection rule, written from the amended claim's words: the
reward of the first schedule entry whose height is at least the block
height, or of the last entry when every height is below it; `none` only for
the empty schedule. -/
def firstAtOrAbove (rewards : List EqualityReward) (number : Nat) :
    Option Int :=
  match rewards.find? (fun r => decide (number ≤ r.number)) with
  | some r => some r.reward
  | none => rewards.getLast?.map (fun r => r.reward)

theorem blockRewardOf_eq_firstAtOrAbove :
    ∀ (rewards : List EqualityReward) (number : Nat),
    blockRewardOf rewards number = firstAtOrAbove rewards number := by
  intro rewards number
  induction rewards with
  | nil => rfl
  | cons r rest ih =>
    cases rest with
    | nil =>
      show (if r.number ≥ number then some r.reward else some r.reward) = _
      rw [firstAtOrAbove, List.find?]
      by_cases h : number ≤ r.number
      · simp [h]
      · simp [h, List.getLast?]
    | cons r2 rest2 =>
      show (if r.number ≥ number then some r.reward
        else blockRewardOf (r2 :: rest2) number) = _
      rw [firstAtOrAbove, List.find?]
      by_cases h : number ≤ r.number
      · simp [h]
      · have hd : decide (number ≤ r.number) = false := by simpa using h
        rw [hd, if_neg (by simpa using h)]
        dsimp only
        rw [ih, firstAtOrAbove]
        cases h3 : (r2 :: rest2).find? (fun x => decide (number ≤ x.number)) with
        | none => dsimp only; rw [List.getLast?_cons_cons]
        | some r4 => rfl

/-- C3, counterexample: with the schedule `[(height 10, reward 100)]` at
block height 5 there is no entry of height ≤ 5, so the claim requires no
balance change; the code selects the first entry with height ≥ 5 and credits
the coinbase 10 (= ⌊100/10⌋), changing the state. -/
theorem accumulateRewards_credits_above_height :
    (∀ r ∈ ([⟨10, 100⟩] : List EqualityReward), ¬ r.number ≤ 5) ∧
    accumulateRewards
        { period := 3, epoch := 100, maxValidatorsCount := 3,
          minCandidateBalance := 0, genesisTimestamp := 0, validators := [],
          pool := 5, rewards := [⟨10, 100⟩] }
        (fun _ => 0)
        { parentHash := 0, uncleHash := 0, coinbase := 7, stateRoot := 0,
          txHash := 0, receiptHash := 0, bloom := [], difficulty := 1,
          number := 5, gasLimit := 0, gasUsed := 0, time := 0, extra := [],
          mixDigest := 0, nonce := 0 } 7 = 10 ∧
    (10 : Int) ≠ 0 := by
  refine ⟨?_, ?_, ?_⟩
  · decide
  · rfl
  · decide

/-- C3, amended: `accumulateRewards` credits according to the FIRST schedule
entry whose height is ≥ the block height, or the LAST entry when all heights
are below it; when the schedule is empty or the selected reward is ≤ 0 it
makes no balance change at all. -/
theorem accumulateRewards_first_at_or_above (config : EqualityConfig)
    (state : Address → Int) (header : Header) :
    accumulateRewards config state header =
      (match firstAtOrAbove config.rewards header.number with
      | none => state
      | some blockReward =>
        if blockReward ≤ 0 then state
        else
          addBalance config.pool (blockReward - blockReward / 10)
            (addBalance header.coinbase (blockReward / 10) state)) := by
  rw [accumulateRewards, blockRewardOf_eq_firstAtOrAbove]

/-! ## Claim C4 — the reward split -/

/-- A config with a positive reward schedule and NO configured pool (the
zero address, Go's `common.Address` zero value). -/
def c4Config : EqualityConfig :=
  { period := 3, epoch := 100, maxValidatorsCount := 3,
    minCandidateBalance := 0, genesisTimestamp := 0, validators := [],
    pool := 0, rewards := [⟨1, 10⟩] }

/-- A block-1 header with coinbase 7. -/
def c4Header : Header :=
  { parentHash := 0, uncleHash := 0, coinbase := 7, stateRoot := 0,
    txHash := 0, receiptHash := 0, bloom := [], difficulty := 1,
    number := 1, gasLimit := 0, gasUsed := 0, time := 0, extra := [],
    mixDigest := 0, nonce := 0 }

/-- C4, counterexample: with no pool configured (zero address) and effective
reward 10, the claim requires 100% (= 10) to the coinbase; the code has no
such branch — it credits the coinbase ⌊10/10⌋ = 1 and the zero address the
remaining 9. -/
theorem accumulateRewards_no_pool_branch :
    blockRewardOf c4Config.rewards c4Header.number = some 10 ∧
    c4Config.pool = 0 ∧
    accumulateRewards c4Config (fun _ => 0) c4Header c4Header.coinbase = 1 ∧
    accumulateRewards c4Config (fun _ => 0) c4Header 0 = 9 ∧
    (1 : Int) ≠ 10 := by
  refine ⟨rfl, rfl, rfl, rfl, by decide⟩

/-- C4, amended: for every positive effective block reward R the equality
variant credits ⌊R/10⌋ to the coinbase and R − ⌊R/10⌋ to `config.pool`,
unconditionally — the zero address receives the 90% share when no pool is
configured — and touches no other balance; when 10 divides R these are
exactly 10% and 90% of R. -/
theorem accumulateRewards_ninety_ten (config : EqualityConfig)
    (state : Address → Int) (header : Header) (blockReward : Int)
    (hR : blockRewardOf config.rewards header.number = some blockReward)
    (hpos : 0 < blockReward) (hdiff : header.coinbase ≠ config.pool) :
    accumulateRewards config state header header.coinbase =
        state header.coinbase + blockReward / 10 ∧
    accumulateRewards config state header config.pool =
        state config.pool + (blockReward - blockReward / 10) ∧
    (∀ a, a ≠ header.coinbase → a ≠ config.pool →
      accumulateRewards config state header a = state a) := by
  rw [accumulateRewards, hR]
  dsimp only
  rw [if_neg (by omega)]
  refine ⟨?_, ?_, ?_⟩
  · rw [addBalance, if_neg hdiff, addBalance, if_pos rfl]
  · rw [addBalance, if_pos rfl, addBalance,
      if_neg (fun h => hdiff h.symm)]
  · intro a h1 h2
    rw [addBalance, if_neg h2, addBalance, if_neg h1]

/-- C4, amended, witness: reward 20 at block 1, coinbase 7, pool 9. -/
theorem accumulateRewards_ninety_ten_witness :
    accumulateRewards
        { c4Config with pool := 9, rewards := [⟨1, 20⟩] } (fun _ => 0)
        c4Header c4Header.coinbase = (0 : Int) + 20 / 10 ∧
    accumulateRewards
        { c4Config with pool := 9, rewards := [⟨1, 20⟩] } (fun _ => 0)
        c4Header ({ c4Config with pool := 9, rewards := [⟨1, 20⟩] } :
          EqualityConfig).pool = (0 : Int) + (20 - 20 / 10) ∧
    (∀ a, a ≠ c4Header.coinbase →
      a ≠ ({ c4Config with pool := 9, rewards := [⟨1, 20⟩] } :
        EqualityConfig).pool →
      accumulateRewards
        { c4Config with pool := 9, rewards := [⟨1, 20⟩] } (fun _ => 0)
        c4Header a = (fun _ => (0 : Int)) a) :=
  accumulateRewards_ninety_ten
    { c4Config with pool := 9, rewards := [⟨1, 20⟩] } (fun _ => 0) c4Header 20
    rfl (by decide) (by decide)

/-! ## Claims C5 and C8 — the epoch election -/

theorem listSwap_length {α : Type} (l : List α) (i j : Nat) :
    (listSwap l i j).length = l.length := by
  unfold listSwap
  cases h1 : l.get? i <;> cases h2 : l.get? j <;> simp

theorem fyLoop_length {α : Type} (rnd : Nat → Nat) :
    ∀ (i : Nat) (l : List α), (fyLoop rnd l i).length = l.length := by
  intro i
  induction i with
  | zero => intro l; rfl
  | succ i ih => intro l; rw [fyLoop, ih, listSwap_length]

theorem randCandidates_eq_nil_iff (rnd : Nat → Nat) (snap : Snapshot)
    (n : Nat) (hn : n ≠ 0) :
    (snap.randCandidates rnd n = [] ↔ snap.candidateTable = []) := by
  rw [Snapshot.randCandidates, if_neg hn]
  cases hc : snap.candidateTable with
  | nil => simp [Snapshot.getCandidates, hc]
  | cons p rest =>
    have hlen : (Snapshot.getCandidates snap).length = rest.length + 1 := by
      simp [Snapshot.getCandidates, hc]
    have hne : (Snapshot.getCandidates snap).isEmpty = false := by
      rw [List.isEmpty_eq_false_iff_exists_mem]
      exact ⟨p.1, by simp [Snapshot.getCandidates, hc]⟩
    rw [hne]
    simp only [Bool.false_eq_true, if_false]
    have hs : (fyLoop rnd (Snapshot.getCandidates snap)
        ((Snapshot.getCandidates snap).length - 1)).length =
        rest.length + 1 := by rw [fyLoop_length, hlen]
    constructor
    · intro h
      exfalso
      by_cases hgt : (fyLoop rnd (Snapshot.getCandidates snap)
          ((Snapshot.getCandidates snap).length - 1)).length > n
      · rw [if_pos hgt] at h
        have := congrArg List.length h
        rw [List.length_take, hs] at this
        simp at this
        omega
      · rw [if_neg hgt] at h
        have := congrArg List.length h
        rw [hs] at this
        simp at this
    · intro h
      cases h

theorem setValidators_candidateTable (snap : Snapshot) (vs : List Address) :
    (snap.setValidators vs).candidateTable = snap.candidateTable := rfl

theorem tryElectPrep_cev (ord : Address → Address → Bool)
    (config : EqualityConfig) (number : Nat) (snap : Snapshot)
    (he : EqHeaderExtra) (nk : List SortableAddress) (snap1 : Snapshot)
    (he1 : EqHeaderExtra)
    (h : tryElectPrep ord config number snap he = some (nk, snap1, he1)) :
    he1.currentEpochValidators = he.currentEpochValidators := by
  rw [tryElectPrep] at h
  split at h
  · simp only [Option.some.injEq, Prod.mk.injEq] at h
    obtain ⟨h1, h2, h3⟩ := h
    rw [← h3]
  · rcases hm : snap.countMinted ord (usub64 he.epoch 1) with _ | validators
    · rw [hm] at h; cases h
    · rw [hm] at h
      simp only [Option.some.injEq, Prod.mk.injEq] at h
      obtain ⟨h1, h2, h3⟩ := h
      rw [← h3]

theorem tryElectKickPhase_cev (config : EqualityConfig)
    (nk : List SortableAddress) (snap : Snapshot) (he : EqHeaderExtra)
    (snap2 : Snapshot) (he2 : EqHeaderExtra)
    (h : tryElectKickPhase config nk snap he = some (snap2, he2)) :
    he2.currentEpochValidators = he.currentEpochValidators := by
  rw [tryElectKickPhase] at h
  split at h
  · simp only [Option.some.injEq, Prod.mk.injEq] at h
    obtain ⟨h1, h2⟩ := h
    rw [← h2]
  · dsimp only at h
    rcases hk : kickOutLoop (config.maxValidatorsCount * 2 / 3 + 1) nk
        ((snap.enoughCandidates
          (config.maxValidatorsCount * 2 / 3 + 1 + nk.length)).1) snap [] with
      _ | ⟨cnt, snap2x, kicked⟩
    · rw [hk] at h; cases h
    · rw [hk] at h
      simp only [Option.some.injEq, Prod.mk.injEq] at h
      obtain ⟨h1, h2⟩ := h
      rw [← h2]

/-- A config with period 60, epoch 1800, three validator slots and one
genesis validator. -/
def c5Config : EqualityConfig :=
  { period := 60, epoch := 1800, maxValidatorsCount := 3,
    minCandidateBalance := 0, genesisTimestamp := 0, validators := [1],
    pool := 0, rewards := [] }

/-- An epoch-first header (block 4). -/
def c5Header : Header :=
  { parentHash := 0, uncleHash := 0, coinbase := 1, stateRoot := 0,
    txHash := 0, receiptHash := 0, bloom := [], difficulty := 1,
    number := 4, gasLimit := 0, gasUsed := 0, time := 0, extra := [],
    mixDigest := 0, nonce := 0 }

/-- A snapshot whose validator list is `[1]` but whose candidate table is
empty (the lone candidate has cancelled). -/
def c5Snapshot : Snapshot := { epochValidators := some [1] }

/-- The header extra of the epoch-first block 4 of epoch 2. -/
def c5Extra : EqHeaderExtra := { epoch := 2, epochBlock := 4 }

/-- C5, counterexample: block 4 IS the first block of its epoch
(`number = epochBlock`), the election succeeds — the kick list `[1]` cannot
be served because the candidate table is empty — and the resulting
`currentEpochValidators` is EMPTY, refuting "non-empty exactly when
`number = epochBlock`". -/
theorem tryElect_epoch_block_empty_validators :
    c5Header.number = c5Extra.epochBlock ∧
    tryElect ordNat (fun _ => 0) c5Config c5Header c5Snapshot c5Extra =
      some (c5Snapshot.setValidators [], c5Extra) ∧
    c5Extra.currentEpochValidators = [] := by
  refine ⟨rfl, by decide, rfl⟩

/-- C5, amended: for a successful election under a sane config
(`maxValidatorsCount > 0`, `period > 0`) starting from an empty
`currentEpochValidators` (as `Finalize`/`FinalizeAndAssemble` do), the
resulting list is empty for every block with `number ≠ epochBlock`, and at
an epoch-first block it is non-empty exactly when the candidate table left
by the seeding/kick-out phases is non-empty. -/
theorem tryElect_validators_nonempty_iff (ord : Address → Address → Bool)
    (rnd : Nat → Nat) (config : EqualityConfig) (header : Header)
    (snap snap1 : Snapshot) (he he1 : EqHeaderExtra)
    (hmax : 0 < config.maxValidatorsCount) (hper : 0 < config.period)
    (hcev : he.currentEpochValidators = [])
    (h : tryElect ord rnd config header snap he = some (snap1, he1)) :
    (header.number ≠ he.epochBlock → he1.currentEpochValidators = []) ∧
    (header.number = he.epochBlock →
      (he1.currentEpochValidators ≠ [] ↔ snap1.candidateTable ≠ [])) := by
  rw [tryElect] at h
  by_cases hnum : header.number ≠ he.epochBlock
  · rw [if_pos hnum] at h
    simp only [Option.some.injEq, Prod.mk.injEq] at h
    obtain ⟨h1, h2⟩ := h
    exact ⟨fun _ => h2 ▸ hcev, fun he' => absurd he' hnum⟩
  · rw [if_neg hnum] at h
    rcases hp : tryElectPrep ord config header.number snap he with
      _ | ⟨nk, snapA, heA⟩
    · rw [hp] at h; cases h
    · rw [hp] at h
      dsimp only at h
      rcases hk : tryElectKickPhase config nk snapA heA with _ | ⟨snapB, heB⟩
      · rw [hk] at h; cases h
      · rw [hk] at h
        dsimp only at h
        simp only [Option.some.injEq, Prod.mk.injEq] at h
        obtain ⟨h1, h2⟩ := h
        have hcevB : heB.currentEpochValidators = [] := by
          rw [tryElectKickPhase_cev config nk snapA heA snapB heB hk,
            tryElectPrep_cev ord config header.number snap he nk snapA heA hp,
            hcev]
        refine ⟨fun hne => absurd hnum (fun _ => hnum hne), fun _ => ?_⟩
        have hcand : snap1.candidateTable = snapB.candidateTable := by
          rw [← h1, setValidators_candidateTable]
        have hval : he1.currentEpochValidators =
            snapB.randCandidates rnd config.maxValidatorsCount := by
          rw [← h2]
          dsimp only
          rw [hcevB, List.nil_append]
        rw [hval, hcand]
        constructor
        · intro hne hnil
          exact hne (((randCandidates_eq_nil_iff rnd snapB
            config.maxValidatorsCount (by omega)).2 hnil))
        · intro hne hnil
          exact hne ((randCandidates_eq_nil_iff rnd snapB
            config.maxValidatorsCount (by omega)).1 hnil)

/-- The genesis-block config of the C5 witness (one genesis validator). -/
def c5wConfig : EqualityConfig :=
  { period := 60, epoch := 1800, maxValidatorsCount := 3,
    minCandidateBalance := 0, genesisTimestamp := 0, validators := [1],
    pool := 0, rewards := [] }

/-- Block-1 header of the C5 witness. -/
def c5wHeader : Header :=
  { parentHash := 0, uncleHash := 0, coinbase := 1, stateRoot := 0,
    txHash := 0, receiptHash := 0, bloom := [], difficulty := 1,
    number := 1, gasLimit := 0, gasUsed := 0, time := 0, extra := [],
    mixDigest := 0, nonce := 0 }

/-- Input header extra of the C5 witness (epoch 1 starting at block 1). -/
def c5wExtra0 : EqHeaderExtra := { epoch := 1, epochBlock := 1 }

/-- Snapshot produced by the C5 witness election. -/
def c5wSnapshot1 : Snapshot :=
  { epochValidators := some [1], candidateTable := [(1, ⟨0, 1⟩)] }

/-- Header extra produced by the C5 witness election. -/
def c5wExtra1 : EqHeaderExtra :=
  { epoch := 1, epochBlock := 1, currentBlockCandidates := [1],
    currentEpochValidators := [1] }

/-- C5, amended, witness: the genesis election at block 1. -/
theorem tryElect_validators_nonempty_iff_witness :
    (c5wHeader.number ≠ c5wExtra0.epochBlock →
      c5wExtra1.currentEpochValidators = []) ∧
    (c5wHeader.number = c5wExtra0.epochBlock →
      (c5wExtra1.currentEpochValidators ≠ [] ↔
        c5wSnapshot1.candidateTable ≠ [])) :=
  tryElect_validators_nonempty_iff ordNat (fun _ => 0) c5wConfig c5wHeader
    {} c5wSnapshot1 c5wExtra0 c5wExtra1 (by decide) (by decide) rfl (by decide)

theorem kickOutLoop_kicked_length (safeSize : Nat) :
    ∀ (kickList : List SortableAddress) (count : Nat) (snap : Snapshot)
      (acc : List Address) (out : Nat × Snapshot × List Address),
    kickOutLoop safeSize kickList count snap acc = some out →
    out.2.2.length = acc.length +
      (if safeSize < count then min kickList.length (count - safeSize)
        else 0) := by
  intro kickList
  induction kickList with
  | nil =>
    intro count snap acc out h
    rw [kickOutLoop] at h
    injection h with h1
    rw [← h1]
    by_cases hc : safeSize < count
    · simp [hc]
    · simp [hc]
  | cons v rest ih =>
    intro count snap acc out h
    rw [kickOutLoop] at h
    by_cases hc : count ≤ safeSize
    · rw [if_pos hc] at h
      injection h with h1
      rw [← h1]
      rw [if_neg (by omega)]
      simp
    · rw [if_neg hc] at h
      rcases hcc : snap.cancelCandidate v.address with _ | ⟨sec, snap1⟩
      · rw [hcc] at h; cases h
      · rw [hcc] at h
        have hrec := ih (count - 1) snap1 (acc ++ [v.address]) out h
        rw [List.length_append] at hrec
        by_cases h2 : safeSize < count - 1
        · rw [if_pos h2] at hrec
          rw [hrec, if_pos (by omega : safeSize < count)]
          simp only [List.length_cons, List.length_nil] at hrec ⊢
          omega
        · rw [if_neg h2] at hrec
          rw [hrec, if_pos (by omega : safeSize < count)]
          simp only [List.length_cons, List.length_nil] at hrec ⊢
          omega

/-- C8: on a successful kick-out phase with `safeSize =
maxValidatorsCount*2/3 + 1` and `candidateCount` the count returned by
`enoughCandidates(safeSize + |kickList|)`, the number of kicked candidates
is `min(|kickList|, candidateCount − safeSize)` when `candidateCount >
safeSize` and zero otherwise. -/
theorem tryElectKickPhase_kick_count (config : EqualityConfig)
    (needKickOut : List SortableAddress) (snap snap2 : Snapshot)
    (he he2 : EqHeaderExtra)
    (hinit : he.currentBlockKickOutCandidates = [])
    (h : tryElectKickPhase config needKickOut snap he = some (snap2, he2)) :
    he2.currentBlockKickOutCandidates.length =
      (if config.maxValidatorsCount * 2 / 3 + 1 <
          (snap.enoughCandidates (config.maxValidatorsCount * 2 / 3 + 1 +
            needKickOut.length)).1
        then min needKickOut.length
          ((snap.enoughCandidates (config.maxValidatorsCount * 2 / 3 + 1 +
            needKickOut.length)).1 - (config.maxValidatorsCount * 2 / 3 + 1))
        else 0) := by
  rw [tryElectKickPhase] at h
  split at h
  · rename_i hempty
    have hnil : needKickOut = [] := by
      cases needKickOut with
      | nil => rfl
      | cons a b => simp [List.isEmpty] at hempty
    simp only [Option.some.injEq, Prod.mk.injEq] at h
    obtain ⟨h1, h2⟩ := h
    rw [← h2, hinit, hnil]
    simp
  · dsimp only at h
    rcases hk : kickOutLoop (config.maxValidatorsCount * 2 / 3 + 1)
        needKickOut
        ((snap.enoughCandidates (config.maxValidatorsCount * 2 / 3 + 1 +
          needKickOut.length)).1) snap [] with _ | ⟨cnt, snapX, kicked⟩
    · rw [hk] at h; cases h
    · rw [hk] at h
      simp only [Option.some.injEq, Prod.mk.injEq] at h
      obtain ⟨h1, h2⟩ := h
      have hlen := kickOutLoop_kicked_length
        (config.maxValidatorsCount * 2 / 3 + 1) needKickOut
        ((snap.enoughCandidates (config.maxValidatorsCount * 2 / 3 + 1 +
          needKickOut.length)).1) snap [] (cnt, snapX, kicked) hk
      rw [← h2]
      dsimp only
      rw [hinit, List.nil_append]
      simpa using hlen

/-- The 5-candidate snapshot of the C8 witness. -/
def c8Snapshot : Snapshot :=
  { candidateTable := [(1, ⟨0, 1⟩), (2, ⟨0, 1⟩), (3, ⟨0, 1⟩), (4, ⟨0, 1⟩),
      (5, ⟨0, 1⟩)] }

/-- Config of the C8 witness: `maxValidatorsCount = 3`, so
`safeSize = 3*2/3 + 1 = 3`. -/
def c8Config : EqualityConfig :=
  { period := 60, epoch := 1800, maxValidatorsCount := 3,
    minCandidateBalance := 0, genesisTimestamp := 0, validators := [],
    pool := 0, rewards := [] }

/-- The three-entry kick list of the C8 witness. -/
def c8KickList : List SortableAddress := [⟨1, 0⟩, ⟨2, 0⟩, ⟨3, 0⟩]

/-- Input header extra of the C8 witness. -/
def c8Extra0 : EqHeaderExtra := { epoch := 2, epochBlock := 4 }

/-- Snapshot produced by the C8 witness kick-out phase. -/
def c8Snapshot2 : Snapshot :=
  { candidateTable := [(3, ⟨0, 1⟩), (4, ⟨0, 1⟩), (5, ⟨0, 1⟩)] }

/-- Header extra produced by the C8 witness kick-out phase: exactly two
kicked. -/
def c8Extra1 : EqHeaderExtra :=
  { epoch := 2, epochBlock := 4, currentBlockKickOutCandidates := [1, 2] }

/-- C8, witness: candidateCount 5, safeSize 3, kick list of three — exactly
two candidates are kicked. -/
theorem tryElectKickPhase_kick_count_witness :
    c8Extra1.currentBlockKickOutCandidates.length =
      (if c8Config.maxValidatorsCount * 2 / 3 + 1 <
          (c8Snapshot.enoughCandidates (c8Config.maxValidatorsCount * 2 / 3 +
            1 + c8KickList.length)).1
        then min c8KickList.length
          ((c8Snapshot.enoughCandidates (c8Config.maxValidatorsCount * 2 / 3 +
            1 + c8KickList.length)).1 -
            (c8Config.maxValidatorsCount * 2 / 3 + 1))
        else 0) ∧
    c8Extra1.currentBlockKickOutCandidates.length = 2 :=
  ⟨tryElectKickPhase_kick_count c8Config c8KickList c8Snapshot c8Snapshot2
    c8Extra0 c8Extra1 rfl (by decide), by decide⟩

/-! ## Claim C6 — becomeCandidate idempotence -/

theorem tableGet_tableInsert {β : Type} (key : Nat) (v : β)
    (l : List (Nat × β)) : tableGet key (tableInsert key v l) = some v := by
  induction l with
  | nil => simp [tableInsert, tableGet]
  | cons p rest ih =>
    obtain ⟨k, w⟩ := p
    rw [tableInsert]
    by_cases h1 : key < k
    · rw [if_pos h1, tableGet, if_pos rfl]
    · rw [if_neg h1]
      by_cases h2 : key = k
      · rw [if_pos h2, tableGet, if_pos rfl]
      · rw [if_neg h2, tableGet, if_neg h2]
        exact ih

/-- C6: `becomeCandidate` is idempotent — when the address is already a
registered candidate it returns `alreadyExists = true` and leaves every
table (hence the snapshot root) unchanged; otherwise it writes the record
`{security := s, blockNumber := n}` under the address; and in either case a
second identical call leaves the snapshot of the first call unchanged. -/
theorem becomeCandidate_idempotent (snap : Snapshot) (a : Address) (n : Nat)
    (s : Int) :
    (tableGet a snap.candidateTable ≠ none →
      snap.becomeCandidate a n s = (true, snap)) ∧
    (tableGet a snap.candidateTable = none →
      snap.becomeCandidate a n s =
        (false,
          { snap with
            candidateTable := tableInsert a ⟨s, n⟩ snap.candidateTable })) ∧
    ((snap.becomeCandidate a n s).2.becomeCandidate a n s).2 =
      (snap.becomeCandidate a n s).2 := by
  rw [Snapshot.becomeCandidate]
  cases hg : tableGet a snap.candidateTable with
  | some c =>
    refine ⟨fun _ => rfl, fun h => absurd h (by simp), ?_⟩
    dsimp only
    rw [Snapshot.becomeCandidate, hg]
  | none =>
    refine ⟨fun h => absurd rfl h, fun _ => rfl, ?_⟩
    dsimp only
    rw [Snapshot.becomeCandidate]
    dsimp only
    rw [tableGet_tableInsert]

/-- A snapshot in which address 5 is already a registered candidate. -/
def c6Snapshot : Snapshot := { candidateTable := [(5, ⟨7, 2⟩)] }

/-- C6, witness: a registered candidate is left unchanged, and the double
call on an empty snapshot equals the single call. -/
theorem becomeCandidate_idempotent_witness :
    Snapshot.becomeCandidate c6Snapshot 5 9 11 = (true, c6Snapshot) ∧
    ((Snapshot.becomeCandidate {} 5 9 11).2.becomeCandidate 5 9 11).2 =
      (Snapshot.becomeCandidate {} 5 9 11).2 :=
  ⟨(becomeCandidate_idempotent c6Snapshot 5 9 11).1 (by decide),
    (becomeCandidate_idempotent {} 5 9 11).2.2⟩

/-! ## Claim C7 — the header-extra codec round trip -/

/-- C7: for every wire-expressible senate HeaderExtra, decoding
(gzip-decompress, then RLP-decode) the encoding (RLP-encode, then
gzip-compress) returns the original value, for every compressor/decompressor
pair that inverts (as Go's gzip does). -/
theorem headerExtra_codec_roundtrip (comp : List Nat → List Nat)
    (decomp : List Nat → Option (List Nat))
    (hgzip : ∀ bs, decomp (comp bs) = some bs)
    (x : SenateHeaderExtra) (hwf : x.wireOkB = true) :
    senateHeaderExtraDecode decomp (senateHeaderExtraEncode comp x) =
      some x := by
  rw [senateHeaderExtraEncode, senateHeaderExtraDecode, hgzip]
  dsimp only
  have hok : itemOkB (headerExtraItem x) = true := by
    simp only [SenateHeaderExtra.wireOkB, Bool.and_eq_true] at hwf
    exact hwf.2
  rw [decodeInit_encode _ hok]
  dsimp only
  exact parseHeaderExtra_headerExtraItem x hwf

/-- The scenario-S1-style header extra of the C7 witness. -/
def s1Extra : SenateHeaderExtra :=
  { root := ⟨100, 200, 300, 0, 0, 0⟩, epoch := 1, epochTime := 1,
    chainConfig := [⟨3, 1800, 21, 100, 10, 0, [addrA], [⟨10, 5⟩]⟩],
    currentBlockDelegates := [(addrA, addrB)],
    currentBlockCandidates := [addrA, addrB],
    currentBlockKickOutCandidates := [],
    currentEpochValidators := [⟨addrA, 0⟩, ⟨addrB, 0⟩] }

/-- C7, witness: the concrete round trip with the identity compressor. -/
theorem headerExtra_codec_roundtrip_witness :
    senateHeaderExtraDecode some (senateHeaderExtraEncode id s1Extra) =
      some s1Extra :=
  headerExtra_codec_roundtrip id some (fun bs => rfl) s1Extra (by decide)

/-! ## Claim C9 — sealHash ignores the seal bytes -/

/-- C9: two headers with extra-data of length ≥ 65 that agree on every
RLP-encoded field and on `extra[:len−65]` — differing arbitrarily in the
trailing 65 seal bytes — have the same seal hash, for every hash
function. -/
theorem sealHash_ignores_seal_bytes (keccak : List Nat → Nat)
    (h1 h2 : Header)
    (hl1 : 65 ≤ h1.extra.length) (hl2 : 65 ≤ h2.extra.length)
    (hfields : h1.parentHash = h2.parentHash ∧ h1.uncleHash = h2.uncleHash ∧
      h1.coinbase = h2.coinbase ∧ h1.stateRoot = h2.stateRoot ∧
      h1.txHash = h2.txHash ∧ h1.receiptHash = h2.receiptHash ∧
      h1.bloom = h2.bloom ∧ h1.difficulty = h2.difficulty ∧
      h1.number = h2.number ∧ h1.gasLimit = h2.gasLimit ∧
      h1.gasUsed = h2.gasUsed ∧ h1.time = h2.time ∧
      h1.mixDigest = h2.mixDigest ∧ h1.nonce = h2.nonce)
    (hextra : h1.extra.take (h1.extra.length - extraSeal) =
      h2.extra.take (h2.extra.length - extraSeal)) :
    sealHash keccak h1 = sealHash keccak h2 := by
  obtain ⟨e1, e2, e3, e4, e5, e6, e7, e8, e9, e10, e11, e12, e13, e14⟩ :=
    hfields
  rw [sealHash, sealHash, encodeSigHeader, encodeSigHeader, e1, e2, e3, e4,
    e5, e6, e7, e8, e9, e10, e11, e12, e13, e14, hextra]

/-- First header of the C9 witness: 97 zero extra bytes. -/
def c9Header1 : Header :=
  { parentHash := 1, uncleHash := 2, coinbase := 3, stateRoot := 4,
    txHash := 5, receiptHash := 6, bloom := [0, 0], difficulty := 1,
    number := 7, gasLimit := 8, gasUsed := 9, time := 10,
    extra := List.replicate 97 0, mixDigest := 0, nonce := 0 }

/-- Second header of the C9 witness: same fields, the trailing 65 extra
bytes replaced by ones. -/
def c9Header2 : Header :=
  { c9Header1 with extra := List.replicate 32 0 ++ List.replicate 65 1 }

/-- C9, witness: the two headers differing only in the seal bytes hash
equally (hash instantiated with a concrete function). -/
theorem sealHash_ignores_seal_bytes_witness :
    sealHash (fun bs => bs.foldl (fun a b => a + b) 0) c9Header1 =
      sealHash (fun bs => bs.foldl (fun a b => a + b) 0) c9Header2 :=
  sealHash_ignores_seal_bytes (fun bs => bs.foldl (fun a b => a + b) 0)
    c9Header1 c9Header2 (by decide) (by decide)
    ⟨rfl, rfl, rfl, rfl, rfl, rfl, rfl, rfl, rfl, rfl, rfl, rfl, rfl, rfl⟩
    (by decide)

/-! ## Claim C10 — inTurn on an empty validator set -/

/-- C10: when the resolved validator list is empty, `inTurn` returns false
for every signer and candidate time — the slot-index division is never
reached — so seal verification and `Seal` report `unauthorized` for every
non-genesis header rather than failing. -/
theorem inTurn_empty_validators (config : EqualityConfig)
    (parent : Option (Nat × List Address)) (t : Nat) (signer : Address)
    (hempty : resolveValidators config parent = []) :
    inTurn config parent t signer = false ∧
    (∀ header : Header, header.number ≠ 0 →
      verifySealCheck config parent header signer = some .unauthorized) ∧
    (∀ header : Header, header.number ≠ 0 →
      extraVanity + extraSeal ≤ header.extra.length →
      sealAuthCheck config parent header = some .unauthorized) := by
  have h1 : ∀ u : Nat, inTurn config parent u signer = false := by
    intro u
    rw [inTurn, hempty]
    rfl
  refine ⟨h1 t, fun header hn => ?_, fun header hn hlen => ?_⟩
  · rw [verifySealCheck, if_neg hn]
    have h2 : ∀ s : Address, inTurn config parent header.time s = false := by
      intro s
      rw [inTurn, hempty]
      rfl
    rw [if_neg (by rw [h2 signer]; exact Bool.false_ne_true)]
  · rw [sealAuthCheck, if_neg hn, if_neg (by omega), if_neg (by omega)]
    have h2 : inTurn config parent header.time header.coinbase = false := by
      rw [inTurn, hempty]
      rfl
    rw [if_pos (by rw [h2]; rfl)]

/-- The C10 witness header (non-genesis, enough extra bytes). -/
def c10Header : Header :=
  { parentHash := 0, uncleHash := 0, coinbase := 3, stateRoot := 0,
    txHash := 0, receiptHash := 0, bloom := [], difficulty := 1,
    number := 2, gasLimit := 0, gasUsed := 0, time := 30,
    extra := List.replicate 97 0, mixDigest := 0, nonce := 0 }

/-- C10, witness: a parent whose snapshot stores an empty validator list. -/
theorem inTurn_empty_validators_witness :
    inTurn c5Config (some (1, [])) 30 3 = false ∧
    (∀ header : Header, header.number ≠ 0 →
      verifySealCheck c5Config (some (1, [])) header 3 =
        some .unauthorized) ∧
    (∀ header : Header, header.number ≠ 0 →
      extraVanity + extraSeal ≤ header.extra.length →
      sealAuthCheck c5Config (some (1, [])) header = some .unauthorized) :=
  inTurn_empty_validators c5Config (some (1, [])) 30 3 (by decide)

end GoSecret
